import Mathlib

set_option maxHeartbeats 1000000

namespace PPSync

/-- Character strings are modelled as lists of characters (JS strings are
sequences of code units; every concrete input in this development is ASCII). -/
abbrev Str := List Char

/-- JS whitespace test for the characters that can occur in the modelled inputs:
ASCII whitespace plus the no-break space.  The regex class \s also admits
further Unicode space characters, none of which occur here. -/
def jsWs (c : Char) : Bool :=
  c.toNat = 32 || c.toNat = 9 || c.toNat = 10 || c.toNat = 13 ||
  c.toNat = 11 || c.toNat = 12 || c.toNat = 160

/-- Membership in the character class [a-z0-9]. -/
def isLowerAlnum (c : Char) : Bool :=
  (97 ≤ c.toNat && c.toNat ≤ 122) || (48 ≤ c.toNat && c.toNat ≤ 57)

/-- JS word character class \w = [A-Za-z0-9_], used by the \b word boundary. -/
def isWordChar (c : Char) : Bool :=
  (65 ≤ c.toNat && c.toNat ≤ 90) || (97 ≤ c.toNat && c.toNat ≤ 122) ||
  (48 ≤ c.toNat && c.toNat ≤ 57) || c.toNat = 95

/-- ASCII lower-casing: the effect of String.prototype.toLowerCase on ASCII. -/
def jsToLower (c : Char) : Char :=
  if 65 ≤ c.toNat && c.toNat ≤ 90 then Char.ofNat (c.toNat + 32) else c

/-- Lower-case every character of the string. -/
def lowerStr (s : Str) : Str := s.map jsToLower

/-- Drop leading JS whitespace (the left half of String.prototype.trim). -/
def trimL (s : Str) : Str := s.dropWhile jsWs

/-- Drop trailing JS whitespace (the right half of String.prototype.trim). -/
def trimR : Str → Str
  | [] => []
  | c :: r =>
    match trimR r with
    | [] => if jsWs c then [] else [c]
    | r' => c :: r'

/-- String.prototype.trim: drop whitespace from both ends. -/
def trim (s : Str) : Str := trimR (trimL s)

/-- Scanner for .replace(/[^a-z0-9]+/g, " "): every maximal run of characters
outside [a-z0-9] becomes one space.  The flag records being inside a run. -/
def collapseNonAlnumAux : Bool → Str → Str
  | _, [] => []
  | inRun, c :: r =>
    if isLowerAlnum c then c :: collapseNonAlnumAux false r
    else if inRun then collapseNonAlnumAux true r
    else ' ' :: collapseNonAlnumAux true r

/-- The effect of .replace(/[^a-z0-9]+/g, " "). -/
def collapseNonAlnum (s : Str) : Str := collapseNonAlnumAux false s

/-- Scanner for .replace(/\s+/g, " "): every maximal whitespace run becomes one
space. -/
def collapseWsAux : Bool → Str → Str
  | _, [] => []
  | inRun, c :: r =>
    if jsWs c then (if inRun then collapseWsAux true r else ' ' :: collapseWsAux true r)
    else c :: collapseWsAux false r

/-- The effect of .replace(/\s+/g, " "). -/
def collapseWs (s : Str) : Str := collapseWsAux false s

/-- One-pass model of .replace(/\(lc[^rc]*rc\)/g, " ") for a delimiter pair:
on an opening delimiter the scanner buffers characters until the next closing
delimiter, emitting a single space for the whole match; an opening delimiter
with no later closing one is emitted literally together with its buffer. -/
def stripDelimAux (lc rc : Char) : Option Str → Str → Str
  | none, [] => []
  | some acc, [] => lc :: acc.reverse
  | none, c :: r =>
    if c = lc then stripDelimAux lc rc (some []) r
    else c :: stripDelimAux lc rc none r
  | some acc, c :: r =>
    if c = rc then ' ' :: stripDelimAux lc rc none r
    else stripDelimAux lc rc (some (c :: acc)) r

/-- The effect of .replace(/\([^)]*\)/g, " ") (pp.ts normalizeTitle, line 131). -/
def stripParens (s : Str) : Str := stripDelimAux '(' ')' none s

/-- The effect of .replace(/\[[^\]]*\]/g, " ") (pp.ts normalizeTitle, line 132). -/
def stripBrackets (s : Str) : Str := stripDelimAux '[' ']' none s

/-- Drop the given literal when it leads the string, returning the remainder. -/
def dropLit : Str → Str → Option Str
  | [], s => some s
  | _, [] => none
  | p :: ps, c :: cs => if c = p then dropLit ps cs else none

/-- Strip at least one JS whitespace character: the regex piece \s+. -/
def dropWs1 : Str → Option Str
  | [] => none
  | c :: r => if jsWs c then some (r.dropWhile jsWs) else none

/-- Word boundary at the front of the remaining string: end of input or a
non-word character. -/
def boundaryAfter : Str → Bool
  | [] => true
  | c :: _ => !isWordChar c

/-- Does /closing\s+worship(\s+song)?\b/ match starting exactly here? -/
def aliasAt (s : Str) : Bool :=
  match dropLit "closing".toList s with
  | none => false
  | some r1 =>
    match dropWs1 r1 with
    | none => false
    | some r2 =>
      match dropLit "worship".toList r2 with
      | none => false
      | some r3 =>
        boundaryAfter r3 ||
        (match dropWs1 r3 with
         | none => false
         | some r4 =>
           match dropLit "song".toList r4 with
           | none => false
           | some r5 => boundaryAfter r5)

/-- Search the whole string for the alias pattern, enforcing the leading word
boundary \b: the previous character, when there is one, is not a word
character. -/
def aliasSearch : Option Char → Str → Bool
  | prev, [] => (prev.all fun c => !isWordChar c) && aliasAt []
  | prev, c :: r =>
    ((prev.all fun c => !isWordChar c) && aliasAt (c :: r)) || aliasSearch (some c) r

/-- The test /\bclosing\s+worship(\s+song)?\b/.test(s) from pp.ts mapAlias. -/
def aliasHolds (s : Str) : Bool := aliasSearch none s

/-- pp.ts mapAlias (lines 122-126): when the lower-cased string matches the
closing-worship pattern the whole title is replaced by the alias. -/
def mapAlias (s : Str) : Str :=
  if aliasHolds (lowerStr s) then "closing worship".toList else s

/-- Unicode NFKD decomposition, modelled as the identity: NFKD is the identity
on ASCII code points, and all concrete inputs in this development are ASCII. -/
def nfkd (s : Str) : Str := s

/-- The tail of pp.ts normalizeTitle (line 134): lower-case, NFKD, collapse
non-alphanumeric runs to single spaces, trim. -/
def cleanTitle (t : Str) : Str := trim (collapseNonAlnum (nfkd (lowerStr t)))

/-- pp.ts normalizeTitle (lines 128-135): strip parenthesized and bracketed
substrings, apply the alias table, then clean. -/
def normalizeTitle (s : Str) : Str := cleanTitle (mapAlias (stripBrackets (stripParens s)))

/-- Does the pattern (first argument) lead the string (second argument)?
Models String.prototype.startsWith. -/
def leadMatch : Str → Str → Bool
  | [], _ => true
  | _ :: _, [] => false
  | p :: ps, c :: cs => c = p && leadMatch ps cs

/-- Substring containment: s.includes(pat). -/
def strContains : Str → Str → Bool
  | [], pat => leadMatch pat []
  | c :: r, pat => leadMatch pat (c :: r) || strContains r pat

/-! Lyric segmenter (part_007: normalizeLyricBlock, sanitizeLyric,
splitLyricLine, buildLyricSlides, enrichSectionLyrics). -/

/-- part_007 line 99: the fixed wrap limit for lyric lines. -/
def MAX_LYRIC_LINE_LENGTH : Nat := 48

/-- ASCII alphanumeric (either case). -/
def isAsciiAlnum (c : Char) : Bool :=
  (48 ≤ c.toNat && c.toNat ≤ 57) || (65 ≤ c.toNat && c.toNat ≤ 90) ||
  (97 ≤ c.toNat && c.toNat ≤ 122)

/-- Membership in the regex class [\p{P}\p{S}] (Unicode punctuation and
symbols), modelled on its ASCII fragment: every printable ASCII character that
is neither alphanumeric nor a space belongs to P or S.  Non-ASCII code points
are not modelled; all concrete inputs here are ASCII. -/
def isPunctSym (c : Char) : Bool :=
  33 ≤ c.toNat && c.toNat ≤ 126 && !isAsciiAlnum c

/-- part_007 sanitizeLyric (lines 319-324): drop punctuation and symbols,
collapse whitespace runs, trim. -/
def sanitizeLyric (v : Str) : Str :=
  trim (collapseWs (v.filter (fun c => !isPunctSym c)))

/-- Largest index i ≤ k such that s has a space at i:
String.prototype.lastIndexOf(" ", k), with none for the JS result -1. -/
def lastSpaceLE (s : Str) (k : Nat) : Option Nat :=
  ((List.range s.length).filter (fun i => i ≤ k && s.getD i (Char.ofNat 0) = ' ')).getLast?

/-- Smallest index i ≥ k such that s has a space at i:
String.prototype.indexOf(" ", k), with none for the JS result -1. -/
def firstSpaceGE (s : Str) (k : Nat) : Option Nat :=
  ((List.range s.length).filter (fun i => k ≤ i && s.getD i (Char.ofNat 0) = ' ')).head?

/-- The break-index computation of part_007 splitLyricLine (lines 304-309): a
backward space search capped at the limit, falling back to a forward search,
where an index that is 0 or missing (JS breakIdx <= 0) means no break. -/
def lyricBreakIdx (s : Str) : Option Nat :=
  let second :=
    if (lastSpaceLE s MAX_LYRIC_LINE_LENGTH).getD 0 = 0
    then firstSpaceGE s MAX_LYRIC_LINE_LENGTH
    else lastSpaceLE s MAX_LYRIC_LINE_LENGTH
  if second.getD 0 = 0 then none else second

/-- The while loop of part_007 splitLyricLine (lines 303-315), with the final
push of the short remainder folded into the base case.  The loop consumes at
least one character of the remainder per iteration, so it is unrolled on a
fuel bound that starts at the length of the remainder; the fuel-exhausted case
is unreachable (splitLyricGo_fuel below) and mirrors the post-loop push. -/
def splitLyricGo : Nat → Str → List Str
  | 0, remaining => if 0 < remaining.length then [remaining] else []
  | fuel + 1, remaining =>
    if MAX_LYRIC_LINE_LENGTH < remaining.length then
      match lyricBreakIdx remaining with
      | none => [remaining]
      | some b =>
        (if trim (remaining.take b) = [] then [] else [trim (remaining.take b)]) ++
          splitLyricGo fuel (trim (remaining.drop b))
    else if 0 < remaining.length then [remaining] else []

/-- part_007 splitLyricLine (lines 300-317): wrap a line at spaces so no piece
exceeds the limit; an unsplittable line falls back to the trimmed input. -/
def splitLyricLine (line : Str) : List Str :=
  let segments := splitLyricGo (trim line).length (trim line)
  if segments = [] then [trim line] else segments

/-- Accumulator of part_007 buildLyricSlides: the expanded line stream, the
finished slides, and the slide being filled. -/
structure LyricAcc where
  expanded : List Str
  slides : List (List Str)
  current : List Str
deriving DecidableEq, Repr

/-- The flush closure of part_007 buildLyricSlides (lines 331-336). -/
def flushSlide (st : LyricAcc) : LyricAcc :=
  if st.current = [] then st
  else { expanded := st.expanded, slides := st.slides ++ [st.current], current := [] }

/-- The per-part body of part_007 buildLyricSlides (lines 345-352). -/
def pushSegment (st : LyricAcc) (part : Str) : LyricAcc :=
  let segment := trim part
  if segment = [] then st
  else
    let st1 : LyricAcc := { st with expanded := st.expanded ++ [segment] }
    let st2 := if st1.current.length = 2 then flushSlide st1 else st1
    let st3 : LyricAcc := { st2 with current := st2.current ++ [segment] }
    if st3.current.length = 2 then flushSlide st3 else st3

/-- The per-line body of part_007 buildLyricSlides (lines 338-353): a blank
line flushes the open slide, a non-blank line is wrapped and its parts are
pushed. -/
def lyricLineStep (st : LyricAcc) (raw : Str) : LyricAcc :=
  if trim raw = [] then flushSlide st
  else (splitLyricLine (trim raw)).foldl pushSegment st

/-- part_007 buildLyricSlides (lines 326-357). -/
def buildLyricSlides (lines : List Str) : LyricAcc :=
  flushSlide (lines.foldl lyricLineStep { expanded := [], slides := [], current := [] })

/-- Normalize \r\n and lone \r to \n: the effect of .replace(/\r\n?/g, "\n"). -/
def normEol : Str → Str
  | [] => []
  | '\r' :: '\n' :: r => '\n' :: normEol r
  | '\r' :: r => '\n' :: normEol r
  | c :: r => c :: normEol r

/-- The effect of .replace(/ /g, " "). -/
def replaceNbsp (s : Str) : Str := s.map (fun c => if c.toNat = 160 then ' ' else c)

/-- String.prototype.split with a single-character separator: empty segments
are kept and the empty string yields one empty segment. -/
def splitOnChar (sep : Char) : Str → List Str
  | [] => [[]]
  | c :: r =>
    if c = sep then [] :: splitOnChar sep r
    else
      match splitOnChar sep r with
      | [] => [[c]]
      | s :: ss => (c :: s) :: ss

/-- part_007 normalizeLyricBlock (lines 224-256): normalize line endings and
no-break spaces, split into lines, trim each, drop leading and trailing blank
lines, then clean, wrap and re-join the non-blank lines. -/
def normalizeLyricBlock (input : Str) : Str :=
  let rawLines := splitOnChar '\n' (replaceNbsp (normEol input))
  let trimmed := rawLines.map trim
  let core := ((trimmed.dropWhile (fun l => trim l = [])).reverse.dropWhile
    (fun l => trim l = [])).reverse
  let expanded := core.foldl (fun acc line =>
    if trim line = [] then acc
    else if sanitizeLyric line = [] then acc
    else acc ++ splitLyricLine (sanitizeLyric line)) ([] : List Str)
  List.intercalate ['\n'] expanded

/-- part_007 enrichSectionLyrics (lines 359-371) restricted to its data flow:
the stored lyric block is split on newlines, each line trimmed at both ends,
and the result packed by buildLyricSlides. -/
def segmentLyricsBlock (raw : Str) : LyricAcc :=
  buildLyricSlides ((splitOnChar '\n' (normalizeLyricBlock raw)).map trim)

/-- Invariant of the buildLyricSlides accumulator: the expanded stream is the
concatenation of the flushed slides followed by the open slide, every flushed
slide holds one or two non-empty lines, and the open slide holds at most one
non-empty line. -/
def AccOk (st : LyricAcc) : Prop :=
  st.expanded = st.slides.flatten ++ st.current ∧
  (∀ s ∈ st.slides, (1 ≤ s.length ∧ s.length ≤ 2) ∧ ∀ l ∈ s, l ≠ []) ∧
  st.current.length ≤ 1 ∧ (∀ l ∈ st.current, l ≠ [])

/-- Prepend already-produced output to an accumulator; used to state that the
slide builder only ever appends to the expanded stream and the slide list. -/
def shiftAcc (e0 : List Str) (s0 : List (List Str)) (st : LyricAcc) : LyricAcc :=
  { expanded := e0 ++ st.expanded, slides := s0 ++ st.slides, current := st.current }

/-! Media matching (main.ts selectMediaMatch, lines 1169-1207). -/

/-- main.ts line 230. -/
def TRANSITION_TOPIC_STOP_WORDS : List Str :=
  ["the", "and", "for", "with", "from", "into", "after", "next", "step",
   "story", "jr", "jr.", "grades", "grade", "service", "news"].map String.toList

/-- main.ts lines 1038-1061 gather these fields; only the ones the score and
the tie-break read are modelled.  updatedAt is an epoch-milliseconds value
(JS numbers are modelled as exact rationals). -/
structure MediaPlaylistItem where
  uuid : Str
  name : Str
  keywords : List Str
  updatedAt : Option ℚ
  filePath : Option Str
deriving DecidableEq, Repr

/-- A MediaPlaylistItem together with its score, as spread in main.ts line
1201. -/
structure MediaMatch extends MediaPlaylistItem where
  score : ℚ
deriving DecidableEq, Repr

/-- main.ts line 1171: topic.toLowerCase().replace(/[^a-z0-9]+/g, " ").trim(). -/
def canonicalTopic (topic : Str) : Str := trim (collapseNonAlnum (lowerStr topic))

/-- The effect of .replace(/\s+/g, ""). -/
def compactOf (s : Str) : Str := s.filter (fun c => !jsWs c)

/-- main.ts line 1174: whitespace-split tokens of the canonical topic, keeping
those of length at least 3 that are not stop words.  The canonical topic only
contains single spaces, so splitting on the space character matches the
/\s+/ split. -/
def topicTokens (canonical : Str) : List Str :=
  (splitOnChar ' ' canonical).filter
    (fun t => 3 ≤ t.length && !(TRANSITION_TOPIC_STOP_WORDS.contains t))

/-- (o ?? 0) on the optional update timestamp. -/
def updGet (o : Option ℚ) : ℚ := o.getD 0

/-- The length of the partial-match slice Math.max(3, Math.ceil(0.6 * n)).
The double product 0.6 * n always rounds to a value whose ceiling equals the
exact ceiling of 3n/5 (the relative rounding error is below half an ulp), so
the float expression is modelled by exact arithmetic. -/
def partialSliceLen (n : Nat) : Nat := max 3 ((3 * n + 4) / 5)

/-- The per-item score of main.ts selectMediaMatch (lines 1176-1199), with
`now` standing for Date.now().  The Number.isFinite guard on the age is
always true in the exact-arithmetic model.  A stored timestamp of 0 is falsy
in JS and earns no recency bonus. -/
def mediaScore (now : ℚ) (topic : Str) (item : MediaPlaylistItem) : ℚ :=
  let canonical := canonicalTopic topic
  let compactTopic := compactOf canonical
  let hayString := List.intercalate [' '] (item.keywords.map lowerStr)
  let hayCompact := compactOf hayString
  let s1 : ℚ := if strContains hayString canonical then 30 else 0
  let s2 : ℚ := if compactTopic ≠ [] ∧ strContains hayCompact compactTopic = true then 15 else 0
  let s3 : ℚ := if strContains (lowerStr item.name) (lowerStr topic) then 8 else 0
  let stok : ℚ := ((topicTokens canonical).map (fun tok =>
    if strContains hayString tok then (10 : ℚ)
    else if strContains hayCompact tok then 6
    else if 5 ≤ tok.length ∧
        strContains hayString (tok.take (partialSliceLen tok.length)) = true then 2
    else 0)).sum
  let srec : ℚ :=
    match item.updatedAt with
    | some ts => if ts = 0 then 0 else max 0 (10 - (now - ts) / 86400000)
    | none => 0
  s1 + s2 + s3 + stok + srec

/-- One step of the best-candidate fold (main.ts lines 1200-1202): take the
item on a strictly better score, or on an equal score with a strictly more
recent update. -/
def selectStep (now : ℚ) (topic : Str) (best : Option MediaMatch)
    (item : MediaPlaylistItem) : Option MediaMatch :=
  let score := mediaScore now topic item
  match best with
  | none => some { item with score := score }
  | some b =>
    if score > b.score ∨ (score = b.score ∧ updGet item.updatedAt > updGet b.updatedAt)
    then some { item with score := score }
    else some b

/-- The best-candidate fold of main.ts selectMediaMatch (lines 1175-1203). -/
def selectBest (now : ℚ) (topic : Str) (items : List MediaPlaylistItem) : Option MediaMatch :=
  items.foldl (selectStep now topic) none

/-- main.ts selectMediaMatch (lines 1169-1207).  The final fallback branch (a
recency-sorted head with score 0) is unreachable: the fold returns a match
whenever the item list is non-empty. -/
def selectMediaMatch (now : ℚ) (topic : Str) (items : List MediaPlaylistItem) :
    Option MediaMatch :=
  if topic = [] ∨ items = [] then none
  else if canonicalTopic topic = [] then none
  else
    match selectBest now topic items with
    | some best => some best
    | none =>
      match (items.mergeSort
          (fun a b => updGet b.updatedAt ≤ updGet a.updatedAt)).head? with
      | some fb => some { fb with score := 0 }
      | none => none

/-- Modelled from the claim text of C4 (spec section 4.4): the per-asset score
the specification prescribes, which differs from mediaScore by omitting the
name-containment bonus of main.ts line 1184. -/
def specMediaScore (now : ℚ) (topic : Str) (item : MediaPlaylistItem) : ℚ :=
  let canonical := canonicalTopic topic
  let compactTopic := compactOf canonical
  let hayString := List.intercalate [' '] (item.keywords.map lowerStr)
  let hayCompact := compactOf hayString
  let s1 : ℚ := if strContains hayString canonical then 30 else 0
  let s2 : ℚ := if compactTopic ≠ [] ∧ strContains hayCompact compactTopic = true then 15 else 0
  let stok : ℚ := ((topicTokens canonical).map (fun tok =>
    if strContains hayString tok then (10 : ℚ)
    else if strContains hayCompact tok then 6
    else if 5 ≤ tok.length ∧
        strContains hayString (tok.take (partialSliceLen tok.length)) = true then 2
    else 0)).sum
  let srec : ℚ :=
    match item.updatedAt with
    | some ts => if ts = 0 then 0 else max 0 (10 - (now - ts) / 86400000)
    | none => 0
  s1 + s2 + stok + srec

/-- Concrete asset for the C4 instances: its keywords are empty, so every
specification addend is 0, yet its name contains the topic. -/
def mediaCexItem : MediaPlaylistItem := ⟨"u".toList, "abc".toList, [], none, none⟩

/-! Playlist synchronization (part_010 syncPlaylist). -/

/-- One requested playlist entry (part_010 line 28: payload.items). -/
inductive PlaylistSourceItem where
  | header (title : Str)
  | presentation (title : Str)
deriving DecidableEq, Repr

/-- One entry of the desired replacement payload (part_010 line 80). -/
inductive DesiredEntry where
  | presentation (uuid : Str)
  | header (name : Str) (index : Nat)
deriving DecidableEq, Repr

/-- part_010 lines 81-89: headers are always pushed with their absolute index,
presentations only when the library index resolves their normalized title.
The resolve argument models (refsByNorm.get(norm) || [])[0].id. -/
def buildDesired (resolve : Str → Option Str) : Nat → List PlaylistSourceItem → List DesiredEntry
  | _, [] => []
  | i, .header t :: rest =>
    .header t i :: buildDesired resolve (i + 1) rest
  | i, .presentation t :: rest =>
    match resolve (normalizeTitle t) with
    | some uuid => .presentation uuid :: buildDesired resolve (i + 1) rest
    | none => buildDesired resolve (i + 1) rest

/-- part_010 line 122: the typed reference key of a desired entry. -/
def desiredRef : DesiredEntry → Str
  | .presentation uuid => 'p' :: ':' :: uuid
  | .header name _ => 'h' :: ':' :: normalizeTitle name

/-- One entry of the playlist the host currently holds. -/
inductive CurrentItem where
  | presentation (uuid : Str)
  | header (name : Str)
  | other
deriving DecidableEq, Repr

/-- part_010 lines 119-121: the typed reference key of a current item; a falsy
uuid or name yields the empty string, removed by filter(Boolean). -/
def currentRef : CurrentItem → Str
  | .presentation uuid => if uuid = [] then [] else 'p' :: ':' :: uuid
  | .header name => if name = [] then [] else 'h' :: ':' :: normalizeTitle name
  | .other => []

def currentRefsOf (items : List CurrentItem) : List Str :=
  (items.map currentRef).filter (fun r => r ≠ [])

/-- part_010 line 124: positional reference equality. -/
def refsEqual (cur des : List Str) : Bool :=
  cur.length == des.length && (List.zip cur des).all (fun p => p.1 == p.2)

/-- The outcome of the diff-then-replace tail of syncPlaylist. -/
structure DiffDecision where
  ok : Bool
  changed : Bool
  putAttempted : Bool
deriving DecidableEq, Repr

/-- part_010 lines 124-132: equal references short-circuit with changed=false
and no PUT; otherwise one PUT replaces the playlist and its status decides the
result. -/
def playlistDiffStep (cur des : List Str) (putOk : Bool) : DiffDecision :=
  if refsEqual cur des then ⟨true, false, false⟩
  else if putOk then ⟨true, true, true⟩
  else ⟨false, false, true⟩

/-- The result fields of part_010 syncPlaylist that the claims mention. -/
structure SyncPlaylistOutcome where
  ok : Bool
  changed : Bool
  totalDesired : Nat
  totalResolved : Nat
  putAttempted : Bool
deriving DecidableEq, Repr

/-- part_010 syncPlaylist (lines 28-133) under a reachable host with a found
playlist: build the desired payload, compare typed references, replace only on
difference.  totalDesired counts the requested items, totalResolved the built
payload (line 90-91). -/
def syncPlaylistCore (resolve : Str → Option Str) (src : List PlaylistSourceItem)
    (current : List CurrentItem) (putOk : Bool) : SyncPlaylistOutcome :=
  let desired := buildDesired resolve 0 src
  let d := playlistDiffStep (currentRefsOf current) (desired.map desiredRef) putOk
  ⟨d.ok, d.changed, src.length, desired.length, d.putAttempted⟩

/-! Plan ingestion and SERVICE-header slicing (pco.ts getNextPlan,
lines 267-384). -/

/-- The kind assigned to a plan item (pco.ts lines 275-281). -/
inductive PlanKind where
  | song | video | announcement
deriving DecidableEq, Repr

/-- The attribute fields of one raw plan-item node that getNextPlan reads.
The description_html fallback (stripHtml) is not modelled: no claim touches
it, and it only feeds the description text.  The three relationship lookups
for the arrangement are collapsed into one resolved field. -/
structure RawPlanNode where
  id : Str
  itemType : Option Str
  category : Option Str
  title : Option Str
  description : Option Str
  notes : Option Str
  sequence : Option Int
  position : Option Int
  lenAttr : Option ℚ
  lenSeconds : Option ℚ
  lenInSeconds : Option ℚ
deriving DecidableEq, Repr

/-- JS truthiness on an optional string: empty and missing are falsy. -/
def optNonEmpty (o : Option Str) : Option Str :=
  match o with
  | some s => if s = [] then none else some s
  | none => none

/-- (a || b || "") on two optional strings. -/
def jsOr2 (a b : Option Str) : Str :=
  match optNonEmpty a with
  | some s => s
  | none =>
    match optNonEmpty b with
    | some s => s
    | none => []

/-- (a.item_type || a.category || "").toString().toLowerCase(). -/
def itemTypeOf (n : RawPlanNode) : Str := lowerStr (jsOr2 n.itemType n.category)

def isHeaderOf (n : RawPlanNode) : Bool := itemTypeOf n == "header".toList

/-- pco.ts lines 275-281 and 338-345. -/
def kindOf (n : RawPlanNode) : PlanKind :=
  if isHeaderOf n then .announcement
  else if strContains (itemTypeOf n) "song".toList then .song
  else if strContains (itemTypeOf n) "media".toList ||
      strContains (itemTypeOf n) "video".toList then .video
  else .announcement

/-- pco.ts line 282 and 347-352: sequence, else position, else the running
1-based index. -/
def orderOf (n : RawPlanNode) (fallback : Int) : Int :=
  match n.sequence with
  | some v => v
  | none =>
    match n.position with
    | some v => v
    | none => fallback

/-- pco.ts lines 283-285 and 354-361. -/
def lenOf (n : RawPlanNode) : Option ℚ :=
  match n.lenAttr with
  | some v => some v
  | none =>
    match n.lenSeconds with
    | some v => some v
    | none => n.lenInSeconds

/-- a.title || a.description || "Untitled". -/
def rawTitleOf (n : RawPlanNode) : Str :=
  match optNonEmpty n.title with
  | some t => t
  | none =>
    match optNonEmpty n.description with
    | some d => d
    | none => "Untitled".toList

/-- pco.ts normalizeWhitespace (lines 128-143): normalize line endings and
no-break spaces, collapse and trim each line, drop leading blank lines and
collapse runs of blank lines, drop trailing blank lines, join and trim. -/
def normalizeWhitespace (input : Str) : Str :=
  let normalized := (splitOnChar '\n' (replaceNbsp (normEol input))).map
    (fun l => trim (collapseWs l))
  let filtered := normalized.foldl (fun acc line =>
    if line = [] ∧ (acc = [] ∨ acc.getLast? = some []) then acc else acc ++ [line]) []
  let filtered2 := (filtered.reverse.dropWhile (fun l => l = [])).reverse
  trim (List.intercalate ['\n'] filtered2)

/-- The description half of pco.ts extractNotes (lines 145-160), with the
description field as the only source (description_html not modelled). -/
def extractDescOf (n : RawPlanNode) : Option Str :=
  match optNonEmpty n.description with
  | some raw =>
    let d := normalizeWhitespace raw
    if d = [] then none else some d
  | none => none

/-- The notes half of pco.ts extractNotes. -/
def extractNotesOf (n : RawPlanNode) : Option Str :=
  match optNonEmpty n.notes with
  | some raw =>
    let d := normalizeWhitespace raw
    if d = [] then none else some d
  | none => none

/-- One canonical plan item as built by getNextPlan.  The category field
(classifyPlanItem) is omitted: it is computed identically in both build paths
and no claim depends on it. -/
structure PlanItem where
  id : Str
  kind : PlanKind
  title : Str
  order : Int
  description : Option Str
  notes : Option Str
  isHeader : Bool
  lengthSeconds : Option ℚ
deriving DecidableEq, Repr

/-- The first item-building loop of getNextPlan (pco.ts lines 270-302), which
does not store lengthSeconds on the item. -/
def buildPlanItemFull (n : RawPlanNode) (fallbackOrder : Int) : PlanItem :=
  { id := n.id, kind := kindOf n, title := rawTitleOf n,
    order := orderOf n fallbackOrder,
    description := extractDescOf n, notes := extractNotesOf n,
    isHeader := isHeaderOf n, lengthSeconds := none }

/-- The rebuild loop of the SERVICE slice (pco.ts lines 332-379), which does
store lengthSeconds. -/
def buildPlanItemSliced (n : RawPlanNode) (fallbackOrder : Int) : PlanItem :=
  { id := n.id, kind := kindOf n, title := rawTitleOf n,
    order := orderOf n fallbackOrder,
    description := extractDescOf n, notes := extractNotesOf n,
    isHeader := isHeaderOf n, lengthSeconds := lenOf n }

/-- Run a per-node builder down the list, handing each node its 1-based
position as the order fallback. -/
def buildItemsGo (build : RawPlanNode → Int → PlanItem) : Int → List RawPlanNode → List PlanItem
  | _, [] => []
  | i, n :: rest => build n (i + 1) :: buildItemsGo build (i + 1) rest

def buildPlanItemsFull (data : List RawPlanNode) : List PlanItem :=
  buildItemsGo buildPlanItemFull 0 data

def buildPlanItemsSliced (data : List RawPlanNode) : List PlanItem :=
  buildItemsGo buildPlanItemSliced 0 data

/-- The norm helper of the slicing block (pco.ts lines 309-313):
String(s ?? "").trim().toLowerCase().replace(/\s+/g, " "). -/
def svcNorm (s : Str) : Str := collapseWs (lowerStr (trim s))

/-- pco.ts isServiceHeader (lines 316-323): a header node whose normalized
title starts with the word service but not with pre-service or
post-service. -/
def isServiceHeaderNode (n : RawPlanNode) : Bool :=
  let t := svcNorm (jsOr2 n.title n.description)
  isHeaderOf n &&
  !leadMatch "pre-service".toList t &&
  !leadMatch "post-service".toList t &&
  (leadMatch "service".toList t && boundaryAfter (t.drop 7))

/-- Array.prototype.findIndex, as an optional index. -/
def findIdxP (p : RawPlanNode → Bool) : List RawPlanNode → Option Nat
  | [] => none
  | n :: rest => if p n then some 0 else (findIdxP p rest).map (· + 1)

/-- The item list getNextPlan returns (pco.ts lines 269-384): the full build,
replaced by the rebuilt suffix when a SERVICE header is found. -/
def planItemsAfterSlicing (data : List RawPlanNode) : List PlanItem :=
  match findIdxP isServiceHeaderNode data with
  | some i => buildPlanItemsSliced (data.drop i)
  | none => buildPlanItemsFull data

/-- Concrete plan nodes for the C9 instance: a song before the SERVICE
header, the header, and a song after it. -/
def svcNodeBefore : RawPlanNode :=
  ⟨"1".toList, some "song".toList, none, some "Walk In".toList, none, none,
   none, none, none, none, none⟩

def svcNodeHeader : RawPlanNode :=
  ⟨"2".toList, some "header".toList, none, some "Service (Main)".toList, none, none,
   none, none, none, none, none⟩

def svcNodeAfter : RawPlanNode :=
  ⟨"3".toList, some "song".toList, none, some "Living Hope".toList, none, none,
   none, none, none, none, none⟩

/-! Presentation sync orchestrator (main.ts runPresentationSync,
lines 2160-2580). -/

/-- One plan item as seen by the mutation loop (main.ts lines 2284-2559),
together with the outcomes of the external calls its processing makes:
categoryLabel is the value of resolvePlanItemCategory (always the stored
category for items built by plan ingestion), matchUuid the matcher result,
hasIndexedPath whether the uuid/title lookup in the library index yields a
file path, hasSongSections whether the song sections payload is non-empty,
songRewriteOk covering both a failed result and a caught crash of the song
rewrite, and raises modelling an exception escaping while this item is
processed. -/
structure LoopItem where
  isHeader : Bool
  title : Str
  id : Str
  notes : Str
  description : Str
  categoryLabel : Option Str
  matchUuid : Option Str
  hasIndexedPath : Bool
  hasSongSections : Bool
  songRewriteOk : Bool
  transitionRewriteOk : Bool
  notesWriteOk : Bool
  raises : Bool
deriving DecidableEq, Repr

/-- The optional category and item-id filters (main.ts lines 2165-2174). -/
structure RunFilters where
  idFilter : Option (List Str)
  categoryFilter : Option (List Str)
deriving DecidableEq, Repr

/-- The run summary tallies (main.ts line 2250). -/
structure RunSummary where
  updated : Nat
  skipped : Nat
  noDesc : Nat
  missingPath : Nat
  writeErrors : Nat
deriving DecidableEq, Repr

def zeroSummary : RunSummary := ⟨0, 0, 0, 0, 0⟩

/-- main.ts line 2288. -/
def idFilterPasses (f : RunFilters) (it : LoopItem) : Bool :=
  match f.idFilter with
  | none => true
  | some ids => ids.contains (trim it.id)

/-- main.ts line 2293. -/
def categoryFilterPasses (f : RunFilters) (it : LoopItem) : Bool :=
  match f.categoryFilter with
  | none => true
  | some cats =>
    match it.categoryLabel with
    | none => false
    | some c => cats.contains (lowerStr c)

/-- main.ts lines 2289-2298: descOverride || notesOverride. -/
def descOf (it : LoopItem) : Str :=
  if trim it.description ≠ [] then trim it.description else trim it.notes

/-- One pass of the mutation loop body (main.ts lines 2284-2558) over the
summary, assuming no exception escapes: headers and filtered items are
skipped silently; an empty title or an unmatched title counts as skipped, a
matched item without text as noDesc, a matched item without an indexed file
as missingPath; a failed song rewrite adds a write error and still writes
notes; a failed transition rewrite adds a write error and skips the notes
write; the notes write then counts updated on success and both a write error
and a skip on failure. -/
def processItem (f : RunFilters) (s : RunSummary) (it : LoopItem) : RunSummary :=
  if it.isHeader then s
  else if !idFilterPasses f it then s
  else if trim it.title = [] then { s with skipped := s.skipped + 1 }
  else if !categoryFilterPasses f it then s
  else
    match it.matchUuid with
    | none => { s with skipped := s.skipped + 1 }
    | some _ =>
      if descOf it = [] then { s with noDesc := s.noDesc + 1 }
      else if !it.hasIndexedPath then { s with missingPath := s.missingPath + 1 }
      else
        let s1 :=
          if it.categoryLabel = some "Song".toList ∧ it.hasSongSections ∧
              it.songRewriteOk = false
          then { s with writeErrors := s.writeErrors + 1 } else s
        if it.categoryLabel = some "Transitions".toList ∧ it.transitionRewriteOk = false
        then { s1 with writeErrors := s1.writeErrors + 1 }
        else if it.notesWriteOk then { s1 with updated := s1.updated + 1 }
        else { s1 with writeErrors := s1.writeErrors + 1, skipped := s1.skipped + 1 }

/-- The summary after the whole mutation loop. -/
def runLoopSummary (f : RunFilters) (items : List LoopItem) : RunSummary :=
  items.foldl (processItem f) zeroSummary

/-- The four buckets of the run summary other than writeErrors. -/
inductive TallyBucket where
  | updated | skipped | noDesc | missingPath
deriving DecidableEq, Repr

/-- Which of the four buckets, if any, processing this item increments;
mirrors the branch structure of processItem.  An item whose transition
rewrite fails increments no bucket (only writeErrors). -/
def outcomeBucket (f : RunFilters) (it : LoopItem) : Option TallyBucket :=
  if it.isHeader then none
  else if !idFilterPasses f it then none
  else if trim it.title = [] then some .skipped
  else if !categoryFilterPasses f it then none
  else
    match it.matchUuid with
    | none => some .skipped
    | some _ =>
      if descOf it = [] then some .noDesc
      else if !it.hasIndexedPath then some .missingPath
      else if it.categoryLabel = some "Transitions".toList ∧ it.transitionRewriteOk = false
      then none
      else if it.notesWriteOk then some .updated
      else some .skipped

/-- Does this item reach the failed-transition-rewrite path, which tallies
only writeErrors? -/
def transitionFailP (f : RunFilters) (it : LoopItem) : Bool :=
  if it.isHeader then false
  else if !idFilterPasses f it then false
  else if trim it.title = [] then false
  else if !categoryFilterPasses f it then false
  else
    match it.matchUuid with
    | none => false
    | some _ =>
      if descOf it = [] then false
      else if !it.hasIndexedPath then false
      else decide (it.categoryLabel = some "Transitions".toList ∧
        it.transitionRewriteOk = false)

/-- An item was processed to some outcome exactly when its processing changes
the summary. -/
def reachesTally (f : RunFilters) (it : LoopItem) : Bool :=
  decide (processItem f zeroSummary it ≠ zeroSummary)

/-- The run environment: the validation and collaborator outcomes that decide
the control flow of one runPresentationSync invocation.  timerFound,
stageLayoutFound, mediaPlaylistFound and clearPropFound are carried to record
that those lookups only degrade features and never affect the result. -/
structure RunEnv where
  hostPortOk : Bool
  libraryRootOk : Bool
  planFetchOk : Bool
  items : List LoopItem
  filters : RunFilters
  timerFound : Bool
  stageLayoutFound : Bool
  indexOk : Bool
  mediaPlaylistFound : Bool
  clearPropFound : Bool
  reopenRequested : Bool
  platformDarwin : Bool
  quitOk : Bool
  launchOk : Bool
deriving DecidableEq, Repr

/-- main.ts line 2253: reopen !== false and darwin. -/
def shouldReopen (env : RunEnv) : Bool := env.reopenRequested && env.platformDarwin

/-- The mutation loop with exceptions: items are processed in order until one
raises; the flag reports whether a raise escaped the loop. -/
def runLoopWithRaise (f : RunFilters) : List LoopItem → RunSummary → RunSummary × Bool
  | [], s => (s, false)
  | it :: rest, s =>
    if it.raises then (s, true)
    else runLoopWithRaise f rest (processItem f s it)

/-- The outcome of one orchestrator run: a fatal error result (ok: false) or a
completed run with its summary and whether the relaunch failed. -/
inductive RunResult where
  | fatal (reason : Str)
  | completed (summary : RunSummary) (reopenFailed : Bool)
deriving DecidableEq, Repr

def RunResult.isFatal : RunResult → Bool
  | .fatal _ => true
  | .completed _ _ => false

structure RunOutcome where
  result : RunResult
  relaunchAttempted : Bool
deriving DecidableEq, Repr

/-- main.ts runPresentationSync (lines 2160-2580): parameter validation, plan
fetch, degradable timer and stage-layout lookups, the library index, the
degradable media-playlist and clear-prop lookups, the host shutdown, then the
mutation loop inside try/finally with the relaunch in the finally block and
the catch turning an escaped exception into an error result. -/
def runPresentationSyncModel (env : RunEnv) : RunOutcome :=
  if !env.hostPortOk then ⟨.fatal "Missing host/port".toList, false⟩
  else if !env.libraryRootOk then ⟨.fatal "Missing library path".toList, false⟩
  else if !env.planFetchOk then ⟨.fatal "Failed to fetch plan".toList, false⟩
  else if !env.indexOk then ⟨.fatal "Library index failed".toList, false⟩
  else if shouldReopen env && !env.quitOk then
    ⟨.fatal "Failed to close ProPresenter".toList, false⟩
  else
    let r := runLoopWithRaise env.filters env.items zeroSummary
    let attempted := shouldReopen env
    if r.2 then ⟨.fatal "Unexpected error".toList, attempted⟩
    else ⟨.completed r.1 (attempted && !env.launchOk), attempted⟩

/-- The four-bucket total of a run summary. -/
def sum4 (s : RunSummary) : Nat := s.updated + s.skipped + s.noDesc + s.missingPath

/-- Concrete loop item for the C1 instances: a matched Transitions item with
text and an indexed file whose transition rewrite fails. -/
def transFailCexItem : LoopItem :=
  ⟨false, "T".toList, "i".toList, [], "d".toList, some "Transitions".toList,
   some "u".toList, true, false, true, false, true, false⟩

/-- Concrete environment for the C2 instances: everything succeeds except the
library index. -/
def envIdxFail : RunEnv :=
  ⟨true, true, true, [], ⟨none, none⟩, true, true, false, true, true, true,
   true, true, true⟩

/-- A loop item whose processing raises an exception. -/
def raisingItem : LoopItem :=
  ⟨false, "X".toList, "i".toList, [], [], none, none, false, false, true,
   true, true, true⟩

/-- Concrete environment for the C5 instance: reopen requested on a platform
with process control, every pre-loop step succeeds, and the single item
raises inside the mutation loop. -/
def envRaise : RunEnv :=
  ⟨true, true, true, [raisingItem], ⟨none, none⟩, true, true, true, true,
   true, true, true, true, true⟩

/-- A character that can appear in a cleaned title: lower alphanumeric or a
space. -/
def midShapeOk (c : Char) : Bool := isLowerAlnum c || c = ' '

/-- All characters admissible for a cleaned title, with no two adjacent spaces
and an alphanumeric last character. -/
def cleanTail : Str → Bool
  | [] => true
  | [c] => isLowerAlnum c
  | c :: d :: r => midShapeOk c && !(c = ' ' && d = ' ') && cleanTail (d :: r)

/-- Like cleanTail but without the constraint on the final character. -/
def looseTail : Str → Bool
  | [] => true
  | [c] => midShapeOk c
  | c :: d :: r => midShapeOk c && !(c = ' ' && d = ' ') && looseTail (d :: r)

/-- Normal form of cleaned titles: empty, or alphanumeric at both ends with
single interior spaces. -/
def cleanShape : Str → Bool
  | [] => true
  | c :: r => isLowerAlnum c && cleanTail (c :: r)

theorem midShapeOk_cases {c : Char} (h : midShapeOk c = true) :
    isLowerAlnum c = true ∨ c = ' ' := by
  simp only [midShapeOk, Bool.or_eq_true, decide_eq_true_eq] at h
  exact h

theorem isLowerAlnum_ne_space {c : Char} (h : isLowerAlnum c = true) : c ≠ ' ' := by
  intro hc; subst hc; simp [isLowerAlnum] at h

theorem isLowerAlnum_not_ws {c : Char} (h : isLowerAlnum c = true) : jsWs c = false := by
  simp only [isLowerAlnum, Bool.or_eq_true, Bool.and_eq_true, decide_eq_true_eq] at h
  simp only [jsWs, Bool.or_eq_false_iff, decide_eq_false_iff_not]
  omega

theorem collapseNonAlnumAux_true_head {s : Str} {d : Char} {r : Str}
    (h : collapseNonAlnumAux true s = d :: r) : isLowerAlnum d = true := by
  induction s generalizing d r with
  | nil => simp [collapseNonAlnumAux] at h
  | cons c cs ih =>
    by_cases hc : isLowerAlnum c = true
    · rw [collapseNonAlnumAux, if_pos hc] at h
      obtain ⟨rfl, -⟩ := List.cons.inj h
      exact hc
    · rw [collapseNonAlnumAux, if_neg hc, if_pos rfl] at h
      exact ih h

theorem looseTail_cons {c : Char} {t : Str} (hm : midShapeOk c = true)
    (ht : looseTail t = true)
    (hd : ∀ d r, t = d :: r → ¬(c = ' ' ∧ d = ' ')) : looseTail (c :: t) = true := by
  cases t with
  | nil => simpa [looseTail] using hm
  | cons d r =>
    have hnd : ¬(c = ' ' ∧ d = ' ') := hd d r rfl
    have hb : (decide (c = ' ') && decide (d = ' ')) = false := by
      by_cases h1 : c = ' '
      · have h2 : ¬d = ' ' := fun h2 => hnd ⟨h1, h2⟩
        simp [h2]
      · simp [h1]
    simp only [looseTail, hb, Bool.not_false, Bool.and_eq_true]
    exact ⟨⟨hm, trivial⟩, ht⟩

theorem looseTail_collapseNonAlnumAux (s : Str) : ∀ b, looseTail (collapseNonAlnumAux b s) = true := by
  induction s with
  | nil => intro b; simp [collapseNonAlnumAux, looseTail]
  | cons c cs ih =>
    intro b
    by_cases hc : isLowerAlnum c = true
    · rw [collapseNonAlnumAux, if_pos hc]
      refine looseTail_cons (by simp [midShapeOk, hc]) (ih false) ?_
      intro d r _ hcd
      exact isLowerAlnum_ne_space hc hcd.1
    · rw [collapseNonAlnumAux, if_neg hc]
      by_cases hb : b = true
      · rw [if_pos hb]; exact ih true
      · rw [if_neg hb]
        refine looseTail_cons (by simp [midShapeOk]) (ih true) ?_
        intro d r hdr hcd
        have := collapseNonAlnumAux_true_head hdr
        exact isLowerAlnum_ne_space this hcd.2

theorem looseTail_tail {c : Char} {r : Str} (h : looseTail (c :: r) = true) :
    looseTail r = true := by
  cases r with
  | nil => simp [looseTail]
  | cons d r' => simp only [looseTail, Bool.and_eq_true] at h; exact h.2

theorem looseTail_head {c : Char} {r : Str} (h : looseTail (c :: r) = true) :
    midShapeOk c = true := by
  cases r with
  | nil => simpa [looseTail] using h
  | cons d r' => simp only [looseTail, Bool.and_eq_true] at h; exact h.1.1

theorem looseTail_no_double {c d : Char} {r : Str}
    (h : looseTail (c :: d :: r) = true) : ¬(c = ' ' ∧ d = ' ') := by
  simp only [looseTail, Bool.and_eq_true, Bool.not_eq_true',
    Bool.and_eq_false_iff, decide_eq_false_iff_not] at h
  rcases h.1.2 with h1 | h1
  · exact fun hcd => h1 hcd.1
  · exact fun hcd => h1 hcd.2

theorem trimL_loose {s : Str} (h : looseTail s = true) :
    looseTail (trimL s) = true ∧ ∀ d r, trimL s = d :: r → isLowerAlnum d = true := by
  cases s with
  | nil => exact ⟨by simp [trimL, looseTail], by intro d r h'; simp [trimL] at h'⟩
  | cons c cs =>
    by_cases hc : isLowerAlnum c = true
    · have hstop : trimL (c :: cs) = c :: cs := by
        simp [trimL, List.dropWhile_cons, isLowerAlnum_not_ws hc]
      refine ⟨by rw [hstop]; exact h, ?_⟩
      intro d r h'
      rw [hstop] at h'
      obtain ⟨rfl, -⟩ := List.cons.inj h'
      exact hc
    · -- first character is a space (from the shape), at most one of them
      have hsp : c = ' ' := by
        rcases midShapeOk_cases (looseTail_head h) with h1 | h1
        · exact absurd h1 hc
        · exact h1
      have hws : jsWs c = true := by subst hsp; decide
      cases cs with
      | nil =>
        have : trimL [c] = [] := by simp [trimL, List.dropWhile_cons, hws]
        exact ⟨by rw [this]; rfl, by intro d r h'; rw [this] at h'; exact absurd h' (by simp)⟩
      | cons d r =>
        have hnd : d ≠ ' ' := fun h2 => looseTail_no_double h ⟨hsp, h2⟩
        have hda : isLowerAlnum d = true := by
          rcases midShapeOk_cases (looseTail_head (looseTail_tail h)) with h1 | h1
          · exact h1
          · exact absurd h1 hnd
        have hstep : trimL (c :: d :: r) = d :: r := by
          simp [trimL, List.dropWhile_cons, hws, isLowerAlnum_not_ws hda]
        refine ⟨by rw [hstep]; exact looseTail_tail h, ?_⟩
        intro e r' h'
        rw [hstep] at h'
        obtain ⟨rfl, -⟩ := List.cons.inj h'
        exact hda

theorem trimR_loose {c : Char} {cs : Str} (h : looseTail (c :: cs) = true) :
    trimR (c :: cs) = [] ∨
      (∃ r, trimR (c :: cs) = c :: r ∧ cleanTail (c :: r) = true) := by
  induction cs generalizing c with
  | nil =>
    by_cases hws : jsWs c = true
    · exact Or.inl (by simp [trimR, hws])
    · have hca : isLowerAlnum c = true := by
        rcases midShapeOk_cases (looseTail_head h) with h1 | h1
        · exact h1
        · exact absurd (by subst h1; decide) hws
      exact Or.inr ⟨[], by simp [trimR, hws], by simpa [cleanTail] using hca⟩
  | cons d r' ih =>
    rcases ih (looseTail_tail h) with htail | ⟨r, hr, hcl⟩
    · rw [trimR, htail]
      by_cases hws : jsWs c = true
      · rw [if_pos hws]; exact Or.inl rfl
      · rw [if_neg hws]
        have hca : isLowerAlnum c = true := by
          rcases midShapeOk_cases (looseTail_head h) with h1 | h1
          · exact h1
          · exact absurd (by subst h1; decide) hws
        exact Or.inr ⟨[], rfl, by simpa [cleanTail] using hca⟩
    · have hne : trimR (d :: r') ≠ [] := by rw [hr]; simp
      have hstep : trimR (c :: d :: r') = c :: trimR (d :: r') := by
        rw [trimR]
        cases heq : trimR (d :: r') with
        | nil => exact absurd heq hne
        | cons e t => rfl
      rw [hstep, hr]
      refine Or.inr ⟨d :: r, rfl, ?_⟩
      simp only [cleanTail, Bool.and_eq_true]
      refine ⟨⟨looseTail_head h, ?_⟩, hcl⟩
      have hnd := looseTail_no_double h
      have hb : (decide (c = ' ') && decide (d = ' ')) = false := by
        by_cases h1 : c = ' '
        · have h2 : ¬d = ' ' := fun h2 => hnd ⟨h1, h2⟩
          simp [h2]
        · simp [h1]
      simp [hb]

theorem cleanShape_trim_of_loose {s : Str} (h : looseTail s = true) :
    cleanShape (trim s) = true := by
  obtain ⟨hl, hhead⟩ := trimL_loose h
  cases hs : trimL s with
  | nil => simp [trim, hs, trimR, cleanShape]
  | cons d t =>
    have hd := hhead d t hs
    rw [hs] at hl
    rcases trimR_loose hl with h1 | ⟨r, hr, hcl⟩
    · simp [trim, hs, h1, cleanShape]
    · rw [trim, hs, hr]
      simp [cleanShape, hd, hcl]

/-- The cleaning pass always yields a string in normal form. -/
theorem cleanShape_cleanTitle (t : Str) : cleanShape (cleanTitle t) = true :=
  cleanShape_trim_of_loose (looseTail_collapseNonAlnumAux _ false)

theorem cleanTail_mem {s : Str} (h : cleanTail s = true) : ∀ c ∈ s, midShapeOk c = true := by
  induction s with
  | nil => simp
  | cons c cs ih =>
    intro d hd
    cases cs with
    | nil =>
      simp only [List.mem_singleton] at hd
      subst hd
      have hc : isLowerAlnum d = true := by simpa [cleanTail] using h
      simp [midShapeOk, hc]
    | cons e r =>
      simp only [cleanTail, Bool.and_eq_true] at h
      rcases List.mem_cons.mp hd with rfl | hd'
      · exact h.1.1
      · exact ih h.2 d hd'

theorem jsToLower_fix {c : Char} (h : midShapeOk c = true) : jsToLower c = c := by
  rcases midShapeOk_cases h with h1 | h1
  · simp only [isLowerAlnum, Bool.or_eq_true, Bool.and_eq_true, decide_eq_true_eq] at h1
    rw [jsToLower, if_neg]
    simp only [Bool.and_eq_true, decide_eq_true_eq, not_and]
    omega
  · subst h1; decide

theorem lowerStr_fix {s : Str} (h : cleanTail s = true) : lowerStr s = s := by
  have hmem := cleanTail_mem h
  induction s with
  | nil => rfl
  | cons c cs ih =>
    have h2 : cleanTail cs = true := by
      cases cs with
      | nil => rfl
      | cons d r => simp only [cleanTail, Bool.and_eq_true] at h; exact h.2
    simp only [lowerStr, List.map_cons]
    rw [jsToLower_fix (hmem c (by simp))]
    have := ih h2 (fun d hd => hmem d (List.mem_cons_of_mem _ hd))
    simpa [lowerStr] using this

theorem collapseNonAlnum_fix {s : Str} (h : cleanTail s = true) :
    collapseNonAlnumAux false s = s := by
  induction s with
  | nil => rfl
  | cons c cs ih =>
    cases cs with
    | nil =>
      have hc : isLowerAlnum c = true := by simpa [cleanTail] using h
      simp [collapseNonAlnumAux, hc]
    | cons d r =>
      simp only [cleanTail, Bool.and_eq_true] at h
      obtain ⟨⟨hm, hnd⟩, htl⟩ := h
      have ihr := ih htl
      rcases midShapeOk_cases hm with hca | hsp
      · rw [collapseNonAlnumAux, if_pos hca, ihr]
      · have hc : c = ' ' := hsp
        have hcna : isLowerAlnum c = false := by subst hc; decide
        have hd : d ≠ ' ' := by
          simp only [Bool.not_eq_true', Bool.and_eq_false_iff, decide_eq_false_iff_not] at hnd
          rcases hnd with h1 | h1
          · exact absurd hc h1
          · exact h1
        have hmd : midShapeOk d = true := cleanTail_mem htl d (by simp)
        have hda : isLowerAlnum d = true := by
          rcases midShapeOk_cases hmd with h1 | h1
          · exact h1
          · exact absurd h1 hd
        have hstep : collapseNonAlnumAux true (d :: r) = d :: collapseNonAlnumAux false r := by
          rw [collapseNonAlnumAux, if_pos hda]
        have hfr : collapseNonAlnumAux false r = r := by
          have : collapseNonAlnumAux false (d :: r) = d :: collapseNonAlnumAux false r := by
            rw [collapseNonAlnumAux, if_pos hda]
          rw [ihr] at this
          exact (List.cons.inj this.symm).2
        rw [collapseNonAlnumAux, if_neg (by simp [hcna]), if_neg (by simp), hstep, hfr, hc]

theorem trimR_fix {s : Str} (h : cleanTail s = true) : trimR s = s := by
  induction s with
  | nil => rfl
  | cons c cs ih =>
    cases cs with
    | nil =>
      have hc : isLowerAlnum c = true := by simpa [cleanTail] using h
      simp [trimR, isLowerAlnum_not_ws hc]
    | cons d r =>
      simp only [cleanTail, Bool.and_eq_true] at h
      have := ih h.2
      rw [trimR, this]

theorem cleanTitle_fix {s : Str} (h : cleanShape s = true) : cleanTitle s = s := by
  cases s with
  | nil => rfl
  | cons c cs =>
    simp only [cleanShape, Bool.and_eq_true] at h
    obtain ⟨hc, ht⟩ := h
    rw [cleanTitle, nfkd, lowerStr_fix ht, collapseNonAlnum, collapseNonAlnum_fix ht, trim]
    have hl : trimL (c :: cs) = c :: cs := by
      simp [trimL, List.dropWhile_cons, isLowerAlnum_not_ws hc]
    rw [hl, trimR_fix ht]

theorem stripDelimAux_id {lc rc : Char} {s : Str} (h : ∀ c ∈ s, c ≠ lc) :
    stripDelimAux lc rc none s = s := by
  induction s with
  | nil => rfl
  | cons c cs ih =>
    rw [stripDelimAux, if_neg (h c (by simp)), ih (fun d hd => h d (List.mem_cons_of_mem _ hd))]

theorem cleanShape_no_delim {s : Str} (h : cleanShape s = true) {p : Char}
    (hp : midShapeOk p = false) : ∀ c ∈ s, c ≠ p := by
  cases s with
  | nil => simp
  | cons c cs =>
    simp only [cleanShape, Bool.and_eq_true] at h
    intro d hd he
    have := cleanTail_mem h.2 d hd
    rw [he, hp] at this
    exact Bool.false_ne_true this

theorem cleanShape_cleanTail {s : Str} (h : cleanShape s = true) : cleanTail s = true := by
  cases s with
  | nil => rfl
  | cons c cs => simp only [cleanShape, Bool.and_eq_true] at h; exact h.2

/-- Applying normalizeTitle to an already-normalized string either leaves it
unchanged or, when the cleaned string matches the closing-worship alias
pattern, collapses it to the alias. -/
theorem normalizeTitle_of_cleanShape {y : Str} (h : cleanShape y = true) :
    normalizeTitle y = (if aliasHolds y = true then "closing worship".toList else y) := by
  rw [normalizeTitle, stripParens, stripDelimAux_id (cleanShape_no_delim h (by decide)),
    stripBrackets, stripDelimAux_id (cleanShape_no_delim h (by decide)), mapAlias,
    lowerStr_fix (cleanShape_cleanTail h)]
  by_cases ha : aliasHolds y = true
  · rw [if_pos ha]
    decide
  · rw [if_neg ha, cleanTitle_fix h]

/-! Lyric slide invariants. -/

theorem flush_ok {st : LyricAcc}
    (hjoin : st.expanded = st.slides.flatten ++ st.current)
    (hs : ∀ s ∈ st.slides, (1 ≤ s.length ∧ s.length ≤ 2) ∧ ∀ l ∈ s, l ≠ [])
    (hc2 : st.current.length ≤ 2) (hcne : ∀ l ∈ st.current, l ≠ []) :
    AccOk (flushSlide st) ∧ (flushSlide st).current = [] := by
  rw [flushSlide]
  by_cases hc : st.current = []
  · rw [if_pos hc]
    exact ⟨⟨hjoin, hs, by rw [hc]; simp, by rw [hc]; simp⟩, hc⟩
  · rw [if_neg hc]
    refine ⟨⟨?_, ?_, by simp, by simp⟩, rfl⟩
    · simpa using hjoin
    · intro s hmem
      rcases List.mem_append.mp hmem with h | h
      · exact hs s h
      · simp only [List.mem_singleton] at h
        subst h
        refine ⟨⟨?_, hc2⟩, hcne⟩
        cases hcur : st.current with
        | nil => exact absurd hcur hc
        | cons a t => simp

theorem accOk_flush {st : LyricAcc} (h : AccOk st) :
    AccOk (flushSlide st) ∧ (flushSlide st).current = [] :=
  flush_ok h.1 h.2.1 (Nat.le_trans h.2.2.1 (by omega)) h.2.2.2

theorem accOk_push {st : LyricAcc} (h : AccOk st) (p : Str) :
    AccOk (pushSegment st p) := by
  obtain ⟨hjoin, hs, hc1, hcne⟩ := h
  rw [pushSegment]
  by_cases hseg : trim p = []
  · rw [if_pos hseg]; exact ⟨hjoin, hs, hc1, hcne⟩
  · rw [if_neg hseg]
    have hne2 : ¬st.current.length = 2 := by omega
    simp only [hne2, if_false]
    set st3 : LyricAcc :=
      { expanded := st.expanded ++ [trim p], slides := st.slides,
        current := st.current ++ [trim p] } with hst3
    have hjoin3 : st3.expanded = st3.slides.flatten ++ st3.current := by
      simp [hst3, hjoin]
    have hcne3 : ∀ l ∈ st3.current, l ≠ [] := by
      intro l hl
      rcases List.mem_append.mp hl with h | h
      · exact hcne l h
      · simp only [List.mem_singleton] at h; subst h; exact hseg
    by_cases hlen : st3.current.length = 2
    · simp only [hlen, if_true]
      exact (flush_ok hjoin3 hs (by omega) hcne3).1
    · simp only [hlen, if_false]
      refine ⟨hjoin3, hs, ?_, hcne3⟩
      have : st3.current.length = st.current.length + 1 := by simp [hst3]
      omega

theorem accOk_foldPush {parts : List Str} :
    ∀ {st : LyricAcc}, AccOk st → AccOk (parts.foldl pushSegment st) := by
  induction parts with
  | nil => intro st h; simpa using h
  | cons p rest ih =>
    intro st h
    simpa using ih (accOk_push h p)

theorem accOk_lineStep {st : LyricAcc} (h : AccOk st) (raw : Str) :
    AccOk (lyricLineStep st raw) := by
  rw [lyricLineStep]
  by_cases hb : trim raw = []
  · rw [if_pos hb]; exact (accOk_flush h).1
  · rw [if_neg hb]; exact accOk_foldPush h

theorem accOk_foldLines {lines : List Str} :
    ∀ {st : LyricAcc}, AccOk st → AccOk (lines.foldl lyricLineStep st) := by
  induction lines with
  | nil => intro st h; simpa using h
  | cons raw rest ih =>
    intro st h
    simpa using ih (accOk_lineStep h raw)

theorem accOk_build (lines : List Str) :
    AccOk (buildLyricSlides lines) ∧ (buildLyricSlides lines).current = [] := by
  rw [buildLyricSlides]
  have h0 : AccOk { expanded := [], slides := [], current := [] } := by
    refine ⟨by simp, by simp, by simp, by simp⟩
  exact accOk_flush (accOk_foldLines h0)

/-- CLAIM C7: for every lyrics block, every output slide holds one or two
non-empty lines, concatenating the slides in order reproduces the expanded
line stream (lyricLines) exactly once, and no blank line appears in any
slide. -/
theorem claim_C7_segmenter_slide_invariants (raw : Str) :
    (∀ s ∈ (segmentLyricsBlock raw).slides,
      (1 ≤ s.length ∧ s.length ≤ 2) ∧ ∀ l ∈ s, l ≠ []) ∧
    (segmentLyricsBlock raw).slides.flatten = (segmentLyricsBlock raw).expanded := by
  obtain ⟨⟨hjoin, hs, -, -⟩, hcur⟩ :=
    accOk_build ((splitOnChar '\n' (normalizeLyricBlock raw)).map trim)
  refine ⟨hs, ?_⟩
  rw [segmentLyricsBlock] at *
  rw [hjoin, hcur]
  simp

theorem claim_C7_witness :
    ((1 ≤ (["Line one".toList, "Line two".toList] : List Str).length ∧
        (["Line one".toList, "Line two".toList] : List Str).length ≤ 2) ∧
      ∀ l ∈ (["Line one".toList, "Line two".toList] : List Str), l ≠ []) ∧
    (segmentLyricsBlock "Line one\nLine two".toList).slides.flatten =
      (segmentLyricsBlock "Line one\nLine two".toList).expanded :=
  ⟨(claim_C7_segmenter_slide_invariants "Line one\nLine two".toList).1 _ (by decide),
   (claim_C7_segmenter_slide_invariants "Line one\nLine two".toList).2⟩

/-! Blank lines and slide boundaries (C3). -/

theorem flush_shift (e0 : List Str) (s0 : List (List Str)) (st : LyricAcc) :
    flushSlide (shiftAcc e0 s0 st) = shiftAcc e0 s0 (flushSlide st) := by
  rw [flushSlide, flushSlide, shiftAcc]
  by_cases hc : st.current = []
  · simp [hc, shiftAcc]
  · simp [hc, shiftAcc]

theorem push_shift (e0 : List Str) (s0 : List (List Str)) (st : LyricAcc) (p : Str) :
    pushSegment (shiftAcc e0 s0 st) p = shiftAcc e0 s0 (pushSegment st p) := by
  rw [pushSegment, pushSegment]
  by_cases hseg : trim p = []
  · simp [hseg]
  · simp only [hseg, if_false, shiftAcc]
    by_cases h2 : st.current.length = 2
    · simp only [h2, if_true, flushSlide]
      by_cases hc : st.current = []
      · simp [hc] at h2
      · simp [hc, shiftAcc]
    · simp only [h2, if_false]
      by_cases h3 : (st.current ++ [trim p]).length = 2
      · simp only [h3, if_true, flushSlide]
        have hne : ¬(st.current ++ [trim p]) = [] := by simp
        simp [hne, shiftAcc]
      · rw [if_neg h3]
        have h4 : ¬st.current.length = 1 := by
          intro h4
          apply h3
          simp [h4]
        simp [shiftAcc, h4]

theorem foldPush_shift (parts : List Str) :
    ∀ (e0 : List Str) (s0 : List (List Str)) (st : LyricAcc),
      parts.foldl pushSegment (shiftAcc e0 s0 st) =
        shiftAcc e0 s0 (parts.foldl pushSegment st) := by
  induction parts with
  | nil => intro e0 s0 st; simp
  | cons p rest ih =>
    intro e0 s0 st
    simp only [List.foldl_cons, push_shift]
    exact ih e0 s0 (pushSegment st p)

theorem lineStep_shift (e0 : List Str) (s0 : List (List Str)) (st : LyricAcc) (raw : Str) :
    lyricLineStep (shiftAcc e0 s0 st) raw = shiftAcc e0 s0 (lyricLineStep st raw) := by
  rw [lyricLineStep, lyricLineStep]
  by_cases hb : trim raw = []
  · simp [hb, flush_shift]
  · simp [hb, foldPush_shift]

theorem foldLines_shift (lines : List Str) :
    ∀ (e0 : List Str) (s0 : List (List Str)) (st : LyricAcc),
      lines.foldl lyricLineStep (shiftAcc e0 s0 st) =
        shiftAcc e0 s0 (lines.foldl lyricLineStep st) := by
  induction lines with
  | nil => intro e0 s0 st; simp
  | cons raw rest ih =>
    intro e0 s0 st
    simp only [List.foldl_cons, lineStep_shift]
    exact ih e0 s0 (lyricLineStep st raw)

theorem flush_fields (st : LyricAcc) :
    (flushSlide st).current = [] ∧ (flushSlide st).expanded = st.expanded := by
  rw [flushSlide]
  by_cases hc : st.current = []
  · simp [hc]
  · simp [hc]

/-- CLAIM C3 (amended): within buildLyricSlides a blank line is a hard slide
boundary: the output on a list with a blank line in the middle is the
concatenation of the outputs on the two halves, so lines from before the
blank and lines from after it never share a slide.  (In the full segmenter
pipeline this situation never arises: see the counterexample.) -/
theorem claim_C3_blank_line_boundary (xs ys : List Str) (b : Str) (hb : trim b = []) :
    buildLyricSlides (xs ++ b :: ys) =
      { expanded := (buildLyricSlides xs).expanded ++ (buildLyricSlides ys).expanded,
        slides := (buildLyricSlides xs).slides ++ (buildLyricSlides ys).slides,
        current := [] } := by
  have hinit : ∀ e0 s0, shiftAcc e0 s0 { expanded := [], slides := [], current := [] } =
      { expanded := e0, slides := s0, current := [] } := by
    intro e0 s0; simp [shiftAcc]
  rw [buildLyricSlides, List.foldl_append, List.foldl_cons]
  set A := xs.foldl lyricLineStep { expanded := [], slides := [], current := [] } with hA
  have hstepb : lyricLineStep A b = flushSlide A := by
    rw [lyricLineStep, if_pos hb]
  have hfb : flushSlide A =
      shiftAcc (buildLyricSlides xs).expanded (buildLyricSlides xs).slides
        { expanded := [], slides := [], current := [] } := by
    rw [hinit]
    have h1 := flush_fields A
    have hbx : buildLyricSlides xs = flushSlide A := by rw [buildLyricSlides, hA]
    rw [hbx]
    cases hf : flushSlide A with
    | mk e s c =>
      have : c = [] := by
        have := h1.1; rw [hf] at this; exact this
      simp [this]
  rw [hstepb, hfb, foldLines_shift, flush_shift]
  have h2 := flush_fields (ys.foldl lyricLineStep { expanded := [], slides := [], current := [] })
  have hby : buildLyricSlides ys =
      flushSlide (ys.foldl lyricLineStep { expanded := [], slides := [], current := [] }) := by
    rw [buildLyricSlides]
  rw [shiftAcc, ← hby]
  have hcy : (buildLyricSlides ys).current = [] := (accOk_build ys).2
  cases hcase : buildLyricSlides ys with
  | mk e s c =>
    have : c = [] := by rw [hcase] at hcy; exact hcy
    simp [this]

theorem claim_C3_witness :
    buildLyricSlides (["a".toList] ++ ([] : Str) :: ["b".toList]) =
      { expanded := (buildLyricSlides ["a".toList]).expanded ++
          (buildLyricSlides ["b".toList]).expanded,
        slides := (buildLyricSlides ["a".toList]).slides ++
          (buildLyricSlides ["b".toList]).slides,
        current := [] } :=
  claim_C3_blank_line_boundary _ _ _ (by decide)

/-- CLAIM C3 counterexample: in the full segmenter pipeline the claim fails.
The block has a blank line separating the non-blank lines a and b, yet both
cleaned lines land in the same output slide, because normalizeLyricBlock
removes blank lines before buildLyricSlides runs. -/
theorem claim_C3_counterexample :
    (segmentLyricsBlock "a\n\nb".toList).slides = [["a".toList, "b".toList]] := by
  decide

/-! Title normalizer idempotence (C8). -/

/-- CLAIM C8 (amended): re-normalizing a normalized title leaves it unchanged
unless the normalized form matches the closing-worship alias pattern, in
which case the second pass collapses it to the alias string. -/
theorem claim_C8_normalize_twice (x : Str) :
    normalizeTitle (normalizeTitle x) =
      (if aliasHolds (normalizeTitle x) = true then "closing worship".toList
       else normalizeTitle x) :=
  normalizeTitle_of_cleanShape (cleanShape_cleanTitle _)

/-- CLAIM C8 counterexample: normalizeTitle is not idempotent.  The hyphen in
the input defeats the alias pattern on the first pass, whose output then
matches it, so the second pass collapses the whole title. -/
theorem claim_C8_counterexample :
    normalizeTitle (normalizeTitle "Closing-Worship Night".toList) ≠
      normalizeTitle "Closing-Worship Night".toList := by
  decide

/-! Media matching (C4). -/

theorem selectBest_fold (now : ℚ) (topic : Str) :
    ∀ (l : List MediaPlaylistItem) (b : MediaMatch),
      ∃ m : MediaMatch, l.foldl (selectStep now topic) (some b) = some m ∧
        (m = b ∨ (m.toMediaPlaylistItem ∈ l ∧
          m.score = mediaScore now topic m.toMediaPlaylistItem)) ∧
        b.score ≤ m.score ∧
        (b.score = m.score → updGet b.updatedAt ≤ updGet m.updatedAt) ∧
        (∀ it ∈ l, mediaScore now topic it ≤ m.score) ∧
        (∀ it ∈ l, mediaScore now topic it = m.score →
          updGet it.updatedAt ≤ updGet m.updatedAt) := by
  intro l
  induction l with
  | nil =>
    intro b
    exact ⟨b, rfl, Or.inl rfl, le_refl _, fun _ => le_refl _, by simp, by simp⟩
  | cons it rest ih =>
    intro b
    rw [List.foldl_cons]
    by_cases hrep : mediaScore now topic it > b.score ∨
        (mediaScore now topic it = b.score ∧ updGet it.updatedAt > updGet b.updatedAt)
    · have hstep : selectStep now topic (some b) it =
          some { it with score := mediaScore now topic it } := by
        rw [selectStep]
        exact if_pos hrep
      rw [hstep]
      obtain ⟨m, hm, hsrc, hble, htie, hall, halltie⟩ :=
        ih { it with score := mediaScore now topic it }
      have hb0score : ({ it with score := mediaScore now topic it } : MediaMatch).score =
          mediaScore now topic it := rfl
      have hbleb : b.score ≤ m.score := by
        rcases hrep with h | h
        · exact le_trans (le_of_lt h) (hb0score ▸ hble)
        · exact le_trans (le_of_eq h.1.symm) (hb0score ▸ hble)
      refine ⟨m, hm, ?_, hbleb, ?_, ?_, ?_⟩
      · rcases hsrc with rfl | ⟨hmem, hsc⟩
        · exact Or.inr ⟨List.mem_cons_self _ _, rfl⟩
        · exact Or.inr ⟨List.mem_cons_of_mem _ hmem, hsc⟩
      · intro hbeq
        rcases hrep with h | h
        · exact absurd (lt_of_lt_of_le h (hb0score ▸ hble)) (by rw [hbeq]; exact lt_irrefl _)
        · have h1 : updGet b.updatedAt ≤ updGet it.updatedAt := le_of_lt h.2
          have h2 : ({ it with score := mediaScore now topic it } : MediaMatch).score =
              m.score := by
            have := hb0score ▸ hble
            have h3 : mediaScore now topic it = b.score := h.1
            rw [hb0score, h3, hbeq]
          have := htie h2
          exact le_trans h1 this
      · intro x hx
        rcases List.mem_cons.mp hx with rfl | hx'
        · exact hb0score ▸ hble
        · exact hall x hx'
      · intro x hx hxeq
        rcases List.mem_cons.mp hx with rfl | hx'
        · exact htie (by rw [hb0score, hxeq])
        · exact halltie x hx' hxeq
    · have hstep : selectStep now topic (some b) it = some b := by
        rw [selectStep]
        exact if_neg hrep
      rw [hstep]
      obtain ⟨m, hm, hsrc, hble, htie, hall, halltie⟩ := ih b
      push_neg at hrep
      obtain ⟨hlt, hupd⟩ := hrep
      have hitle : mediaScore now topic it ≤ b.score := hlt
      refine ⟨m, hm, ?_, hble, htie, ?_, ?_⟩
      · rcases hsrc with rfl | ⟨hmem, hsc⟩
        · exact Or.inl rfl
        · exact Or.inr ⟨List.mem_cons_of_mem _ hmem, hsc⟩
      · intro x hx
        rcases List.mem_cons.mp hx with rfl | hx'
        · exact le_trans hitle hble
        · exact hall x hx'
      · intro x hx hxeq
        rcases List.mem_cons.mp hx with rfl | hx'
        · have hbe : b.score = m.score := le_antisymm hble (hxeq ▸ hitle)
          have hxb : mediaScore now topic x = b.score := by rw [hxeq, hbe]
          exact le_trans (hupd hxb) (htie hbe)
        · exact halltie x hx' hxeq

/-- CLAIM C4 (amended): selectMediaMatch assigns every asset the weighted
score of mediaScore, which extends the score the specification lists by a
bonus of 8 when the lower-cased asset name contains the lower-cased raw
topic; the returned asset has the highest score, and among assets with the
top score the returned one has the greatest update timestamp. -/
theorem claim_C4_weighted_argmax (now : ℚ) (topic : Str)
    (items : List MediaPlaylistItem) (hne : items ≠ [])
    (hcanon : canonicalTopic topic ≠ []) :
    ∃ m : MediaMatch, selectMediaMatch now topic items = some m ∧
      m.toMediaPlaylistItem ∈ items ∧
      m.score = mediaScore now topic m.toMediaPlaylistItem ∧
      (∀ it ∈ items, mediaScore now topic it ≤ m.score) ∧
      (∀ it ∈ items, mediaScore now topic it = m.score →
        updGet it.updatedAt ≤ updGet m.updatedAt) := by
  obtain ⟨it, rest, rfl⟩ := List.exists_cons_of_ne_nil hne
  have htop : topic ≠ [] := by
    intro h
    rw [h] at hcanon
    exact hcanon (by decide)
  obtain ⟨m, hm, hsrc, hble, htie, hall, halltie⟩ :=
    selectBest_fold now topic rest { it with score := mediaScore now topic it }
  have hsb : selectBest now topic (it :: rest) = some m := by
    rw [selectBest, List.foldl_cons]
    exact hm
  refine ⟨m, ?_, ?_, ?_, ?_, ?_⟩
  · rw [selectMediaMatch, if_neg (by simp [htop]), if_neg hcanon, hsb]
  · rcases hsrc with rfl | ⟨hmem, -⟩
    · exact List.mem_cons_self _ _
    · exact List.mem_cons_of_mem _ hmem
  · rcases hsrc with rfl | ⟨-, hsc⟩
    · rfl
    · exact hsc
  · intro x hx
    rcases List.mem_cons.mp hx with rfl | hx'
    · exact hble
    · exact hall x hx'
  · intro x hx hxeq
    rcases List.mem_cons.mp hx with rfl | hx'
    · exact htie hxeq
    · exact halltie x hx' hxeq

theorem claim_C4_witness :
    ∃ m : MediaMatch, selectMediaMatch 0 "abc".toList [mediaCexItem] = some m ∧
      m.toMediaPlaylistItem ∈ [mediaCexItem] ∧
      m.score = mediaScore 0 "abc".toList m.toMediaPlaylistItem ∧
      (∀ it ∈ [mediaCexItem], mediaScore 0 "abc".toList it ≤ m.score) ∧
      (∀ it ∈ [mediaCexItem], mediaScore 0 "abc".toList it = m.score →
        updGet it.updatedAt ≤ updGet m.updatedAt) :=
  claim_C4_weighted_argmax 0 "abc".toList [mediaCexItem] (by decide) (by decide)

theorem mediaScore_cex_eval : mediaScore 0 "abc".toList mediaCexItem = 8 := by
  show (if strContains (List.intercalate [' '] (mediaCexItem.keywords.map lowerStr))
        (canonicalTopic "abc".toList) then (30 : ℚ) else 0) +
      (if compactOf (canonicalTopic "abc".toList) ≠ [] ∧
          strContains (compactOf (List.intercalate [' '] (mediaCexItem.keywords.map lowerStr)))
            (compactOf (canonicalTopic "abc".toList)) = true then (15 : ℚ) else 0) +
      (if strContains (lowerStr mediaCexItem.name) (lowerStr "abc".toList)
        then (8 : ℚ) else 0) +
      ((topicTokens (canonicalTopic "abc".toList)).map (fun tok =>
        if strContains (List.intercalate [' '] (mediaCexItem.keywords.map lowerStr)) tok
          then (10 : ℚ)
        else if strContains (compactOf (List.intercalate [' ']
            (mediaCexItem.keywords.map lowerStr))) tok then 6
        else if 5 ≤ tok.length ∧
            strContains (List.intercalate [' '] (mediaCexItem.keywords.map lowerStr))
              (tok.take (partialSliceLen tok.length)) = true then 2
        else 0)).sum +
      (match mediaCexItem.updatedAt with
       | some ts => if ts = 0 then 0 else max 0 (10 - (0 - ts) / 86400000)
       | none => (0 : ℚ)) = 8
  rw [if_neg (by decide), if_neg (by decide), if_pos (by decide)]
  rw [show topicTokens (canonicalTopic "abc".toList) = ["abc".toList] from by decide]
  rw [show (["abc".toList].map (fun tok =>
      if strContains (List.intercalate [' '] (mediaCexItem.keywords.map lowerStr)) tok
        then (10 : ℚ)
      else if strContains (compactOf (List.intercalate [' ']
          (mediaCexItem.keywords.map lowerStr))) tok then 6
      else if 5 ≤ tok.length ∧
          strContains (List.intercalate [' '] (mediaCexItem.keywords.map lowerStr))
            (tok.take (partialSliceLen tok.length)) = true then 2
      else 0)) = [(0 : ℚ)] from by
    simp only [List.map]
    rw [if_neg (by decide), if_neg (by decide), if_neg (by decide)]]
  simp only [mediaCexItem]
  norm_num

theorem specMediaScore_cex_eval : specMediaScore 0 "abc".toList mediaCexItem = 0 := by
  show (if strContains (List.intercalate [' '] (mediaCexItem.keywords.map lowerStr))
        (canonicalTopic "abc".toList) then (30 : ℚ) else 0) +
      (if compactOf (canonicalTopic "abc".toList) ≠ [] ∧
          strContains (compactOf (List.intercalate [' '] (mediaCexItem.keywords.map lowerStr)))
            (compactOf (canonicalTopic "abc".toList)) = true then (15 : ℚ) else 0) +
      ((topicTokens (canonicalTopic "abc".toList)).map (fun tok =>
        if strContains (List.intercalate [' '] (mediaCexItem.keywords.map lowerStr)) tok
          then (10 : ℚ)
        else if strContains (compactOf (List.intercalate [' ']
            (mediaCexItem.keywords.map lowerStr))) tok then 6
        else if 5 ≤ tok.length ∧
            strContains (List.intercalate [' '] (mediaCexItem.keywords.map lowerStr))
              (tok.take (partialSliceLen tok.length)) = true then 2
        else 0)).sum +
      (match mediaCexItem.updatedAt with
       | some ts => if ts = 0 then 0 else max 0 (10 - (0 - ts) / 86400000)
       | none => (0 : ℚ)) = 0
  rw [if_neg (by decide), if_neg (by decide)]
  rw [show topicTokens (canonicalTopic "abc".toList) = ["abc".toList] from by decide]
  rw [show (["abc".toList].map (fun tok =>
      if strContains (List.intercalate [' '] (mediaCexItem.keywords.map lowerStr)) tok
        then (10 : ℚ)
      else if strContains (compactOf (List.intercalate [' ']
          (mediaCexItem.keywords.map lowerStr))) tok then 6
      else if 5 ≤ tok.length ∧
          strContains (List.intercalate [' '] (mediaCexItem.keywords.map lowerStr))
            (tok.take (partialSliceLen tok.length)) = true then 2
      else 0)) = [(0 : ℚ)] from by
    simp only [List.map]
    rw [if_neg (by decide), if_neg (by decide), if_neg (by decide)]]
  simp only [mediaCexItem]
  norm_num

/-- CLAIM C4 counterexample: the claimed score formula misses the +8 bonus of
main.ts line 1184 for an asset whose name contains the raw topic.  On this
asset the claim prescribes score 0, but selectMediaMatch computes and returns
score 8. -/
theorem claim_C4_counterexample :
    selectMediaMatch 0 "abc".toList [mediaCexItem] =
        some { mediaCexItem with score := (8 : ℚ) } ∧
      specMediaScore 0 "abc".toList mediaCexItem = 0 ∧ ((8 : ℚ) ≠ 0) := by
  refine ⟨?_, specMediaScore_cex_eval, by norm_num⟩
  rw [selectMediaMatch, if_neg (by decide), if_neg (by decide)]
  have hsb : selectBest 0 "abc".toList [mediaCexItem] =
      some { mediaCexItem with score := mediaScore 0 "abc".toList mediaCexItem } := by
    rw [selectBest, List.foldl_cons, List.foldl_nil]
    rfl
  rw [hsb, mediaScore_cex_eval]

/-! Playlist differ (C6) and silent dropping of unresolved presentations
(C10). -/

theorem refsEqual_iff (cur des : List Str) : refsEqual cur des = true ↔ cur = des := by
  induction cur generalizing des with
  | nil => cases des <;> simp [refsEqual]
  | cons c r ih =>
    cases des with
    | nil => simp [refsEqual]
    | cons d t =>
      have := ih t
      simp only [refsEqual, List.length_cons, List.zip_cons_cons, List.all_cons,
        beq_iff_eq, Bool.and_eq_true, Nat.add_right_cancel_iff] at this ⊢
      constructor
      · rintro ⟨h1, h2, h3⟩
        exact List.cons_eq_cons.mpr ⟨h2, this.mp ⟨h1, h3⟩⟩
      · intro h
        obtain ⟨rfl, rfl⟩ := List.cons_eq_cons.mp h
        exact ⟨(this.mpr rfl).1, rfl, (this.mpr rfl).2⟩

/-- CLAIM C6: the playlist differ reports changed = false and issues no
replacement exactly when the two typed reference sequences have the same
length and the same key at every index; in particular diff(X, X) is unchanged
for every X including the empty sequence, any difference (such as a
reordering of the same elements) triggers a replacement, and with a
successful PUT such a difference is reported as changed. -/
theorem claim_C6_differ_positional_equality (cur des : List Str) (putOk : Bool) :
    (((playlistDiffStep cur des putOk).changed = false ∧
        (playlistDiffStep cur des putOk).putAttempted = false) ↔
      (cur.length = des.length ∧ ∀ i, cur.get? i = des.get? i)) ∧
    ((playlistDiffStep cur cur putOk).changed = false ∧
      (playlistDiffStep cur cur putOk).putAttempted = false) ∧
    (cur ≠ des → (playlistDiffStep cur des putOk).putAttempted = true) ∧
    (cur ≠ des → putOk = true → (playlistDiffStep cur des putOk).changed = true) := by
  have hiff : ∀ a b : List Str, (a.length = b.length ∧ ∀ i, a.get? i = b.get? i) ↔ a = b := by
    intro a b
    constructor
    · intro h
      exact List.ext_get?_iff.mpr h.2
    · rintro rfl
      exact ⟨rfl, fun _ => rfl⟩
  refine ⟨?_, ?_, ?_, ?_⟩
  · rw [playlistDiffStep]
    by_cases he : refsEqual cur des = true
    · rw [if_pos he]
      constructor
      · intro _
        exact (hiff _ _).mpr ((refsEqual_iff _ _).mp he)
      · intro _
        exact ⟨rfl, rfl⟩
    · rw [if_neg he]
      have hne : cur ≠ des := fun h => he ((refsEqual_iff _ _).mpr h)
      have hr : ¬(cur.length = des.length ∧ ∀ i, cur.get? i = des.get? i) :=
        fun hc => hne ((hiff _ _).mp hc)
      by_cases hput : putOk = true
      · rw [if_pos hput]
        constructor
        · intro h1
          exact absurd h1.1 (by decide)
        · intro hc
          exact absurd hc hr
      · rw [if_neg hput]
        constructor
        · intro h1
          exact absurd h1.2 (by decide)
        · intro hc
          exact absurd hc hr
  · rw [playlistDiffStep, if_pos ((refsEqual_iff _ _).mpr rfl)]
    exact ⟨rfl, rfl⟩
  · intro hne
    rw [playlistDiffStep, if_neg (fun h => hne ((refsEqual_iff _ _).mp h))]
    by_cases hput : putOk = true
    · rw [if_pos hput]
    · rw [if_neg hput]
  · intro hne hput
    rw [playlistDiffStep, if_neg (fun h => hne ((refsEqual_iff _ _).mp h)), if_pos hput]

theorem claim_C6_witness :
    (playlistDiffStep ["p:a".toList] [] true).putAttempted = true :=
  (claim_C6_differ_positional_equality ["p:a".toList] [] true).2.2.1 (by decide)

theorem buildDesired_length (resolve : Str → Option Str) :
    ∀ (src : List PlaylistSourceItem) (i : Nat),
      (buildDesired resolve i src).length ≤ src.length := by
  intro src
  induction src with
  | nil => intro i; simp [buildDesired]
  | cons it rest ih =>
    intro i
    cases it with
    | header t =>
      rw [buildDesired]
      simpa using ih (i + 1)
    | presentation t =>
      rw [buildDesired]
      cases resolve (normalizeTitle t) with
      | some uuid => simpa using ih (i + 1)
      | none => exact le_trans (ih (i + 1)) (by simp)

theorem buildDesired_header_mem (resolve : Str → Option Str) :
    ∀ (src : List PlaylistSourceItem) (i0 i : Nat) (t : Str),
      src.get? i = some (.header t) →
      DesiredEntry.header t (i0 + i) ∈ buildDesired resolve i0 src := by
  intro src
  induction src with
  | nil => intro i0 i t h; simp at h
  | cons it rest ih =>
    intro i0 i t h
    cases i with
    | zero =>
      simp only [List.get?_cons_zero, Option.some.injEq] at h
      subst h
      rw [buildDesired]
      simp
    | succ j =>
      simp only [List.get?_cons_succ] at h
      have := ih (i0 + 1) j t h
      have harith : i0 + 1 + j = i0 + (j + 1) := by omega
      rw [harith] at this
      cases it with
      | header s =>
        rw [buildDesired]
        exact List.mem_cons_of_mem _ this
      | presentation s =>
        rw [buildDesired]
        cases resolve (normalizeTitle s) with
        | some uuid => exact List.mem_cons_of_mem _ this
        | none => exact this

theorem buildDesired_mem_src (resolve : Str → Option Str) :
    ∀ (src : List PlaylistSourceItem) (i0 : Nat) (e : DesiredEntry),
      e ∈ buildDesired resolve i0 src →
      (∃ i t, src.get? i = some (.header t) ∧ e = .header t (i0 + i)) ∨
      (∃ t uuid, PlaylistSourceItem.presentation t ∈ src ∧
        resolve (normalizeTitle t) = some uuid ∧ e = .presentation uuid) := by
  intro src
  induction src with
  | nil => intro i0 e h; simp [buildDesired] at h
  | cons it rest ih =>
    intro i0 e h
    cases it with
    | header s =>
      rw [buildDesired] at h
      rcases List.mem_cons.mp h with rfl | h'
      · exact Or.inl ⟨0, s, by simp, by simp⟩
      · rcases ih (i0 + 1) e h' with ⟨i, t, hg, he⟩ | ⟨t, uuid, hmem, hr, he⟩
        · refine Or.inl ⟨i + 1, t, by simpa using hg, ?_⟩
          rw [he]
          congr 1
          omega
        · exact Or.inr ⟨t, uuid, List.mem_cons_of_mem _ hmem, hr, he⟩
    | presentation s =>
      rw [buildDesired] at h
      cases hres : resolve (normalizeTitle s) with
      | some uuid =>
        rw [hres] at h
        rcases List.mem_cons.mp h with rfl | h'
        · exact Or.inr ⟨s, uuid, List.mem_cons_self _ _, hres, rfl⟩
        · rcases ih (i0 + 1) e h' with ⟨i, t, hg, he⟩ | ⟨t, uuid', hmem, hr, he⟩
          · refine Or.inl ⟨i + 1, t, by simpa using hg, ?_⟩
            rw [he]
            congr 1
            omega
          · exact Or.inr ⟨t, uuid', List.mem_cons_of_mem _ hmem, hr, he⟩
      | none =>
        rw [hres] at h
        rcases ih (i0 + 1) e h with ⟨i, t, hg, he⟩ | ⟨t, uuid', hmem, hr, he⟩
        · refine Or.inl ⟨i + 1, t, by simpa using hg, ?_⟩
          rw [he]
          congr 1
          omega
        · exact Or.inr ⟨t, uuid', List.mem_cons_of_mem _ hmem, hr, he⟩

/-- CLAIM C10: playlist synchronization silently drops unresolved
presentations: every desired entry is either a requested header (always kept,
at its request index) or a presentation whose normalized title resolved in
the library index, so totalResolved never exceeds totalDesired, and a run can
report ok with a replacement that holds fewer items than were requested. -/
theorem claim_C10_silent_drop :
    (∀ (resolve : Str → Option Str) (src : List PlaylistSourceItem)
        (current : List CurrentItem) (putOk : Bool),
      (syncPlaylistCore resolve src current putOk).totalResolved ≤
        (syncPlaylistCore resolve src current putOk).totalDesired) ∧
    (∀ (resolve : Str → Option Str) (src : List PlaylistSourceItem) (i : Nat) (t : Str),
      src.get? i = some (.header t) →
      DesiredEntry.header t i ∈ buildDesired resolve 0 src) ∧
    (∀ (resolve : Str → Option Str) (src : List PlaylistSourceItem) (e : DesiredEntry),
      e ∈ buildDesired resolve 0 src →
      (∃ i t, src.get? i = some (.header t) ∧ e = .header t i) ∨
      (∃ t uuid, PlaylistSourceItem.presentation t ∈ src ∧
        resolve (normalizeTitle t) = some uuid ∧ e = .presentation uuid)) ∧
    ((syncPlaylistCore (fun _ => none)
        [.presentation "x".toList, .header "H".toList] [] true).ok = true ∧
      (syncPlaylistCore (fun _ => none)
        [.presentation "x".toList, .header "H".toList] [] true).changed = true ∧
      (syncPlaylistCore (fun _ => none)
          [.presentation "x".toList, .header "H".toList] [] true).totalResolved <
        (syncPlaylistCore (fun _ => none)
          [.presentation "x".toList, .header "H".toList] [] true).totalDesired) := by
  refine ⟨?_, ?_, ?_, by decide⟩
  · intro resolve src current putOk
    exact buildDesired_length resolve src 0
  · intro resolve src i t h
    simpa using buildDesired_header_mem resolve src 0 i t h
  · intro resolve src e h
    rcases buildDesired_mem_src resolve src 0 e h with ⟨i, t, hg, he⟩ | hr
    · exact Or.inl ⟨i, t, hg, by simpa using he⟩
    · exact Or.inr hr

theorem claim_C10_witness :
    DesiredEntry.header "H".toList 1 ∈
      buildDesired (fun _ => none) 0 [.presentation "x".toList, .header "H".toList] :=
  claim_C10_silent_drop.2.1 (fun _ => none)
    [.presentation "x".toList, .header "H".toList] 1 "H".toList (by decide)

/-! SERVICE header slicing (C9). -/

theorem findIdxP_none_of_all {p : RawPlanNode → Bool} :
    ∀ {l : List RawPlanNode}, (∀ n ∈ l, p n = false) → findIdxP p l = none := by
  intro l
  induction l with
  | nil => intro _; rfl
  | cons n rest ih =>
    intro h
    rw [findIdxP, if_neg (by simp [h n (by simp)]),
      ih (fun m hm => h m (List.mem_cons_of_mem _ hm))]
    rfl

theorem findIdxP_first {p : RawPlanNode → Bool} :
    ∀ {l : List RawPlanNode} {i : Nat} {n : RawPlanNode},
      l.get? i = some n → p n = true → (∀ m ∈ l.take i, p m = false) →
      findIdxP p l = some i := by
  intro l
  induction l with
  | nil => intro i n h; simp at h
  | cons a rest ih =>
    intro i n hget hp htake
    cases i with
    | zero =>
      simp only [List.get?_cons_zero, Option.some.injEq] at hget
      subst hget
      rw [findIdxP, if_pos hp]
    | succ j =>
      have ha : p a = false := htake a (by
        rw [List.take_succ_cons]
        exact List.mem_cons_self _ _)
      rw [findIdxP, if_neg (by simp [ha])]
      rw [ih (by simpa using hget) hp (fun m hm => htake m (by
        rw [List.take_succ_cons]
        exact List.mem_cons_of_mem _ hm))]
      rfl

/-- CLAIM C9: plan ingestion slices the plan at the first SERVICE header.
When no header with a normalized title starting with the word service (and
not with pre-service or post-service) exists, the full item list is built
unchanged; when the first such header sits at position i, the returned items
are exactly those rebuilt from that header and every following node in source
order, and every node before it is excluded. -/
theorem claim_C9_service_slicing (data : List RawPlanNode) :
    ((∀ n ∈ data, isServiceHeaderNode n = false) →
      planItemsAfterSlicing data = buildPlanItemsFull data) ∧
    (∀ (i : Nat) (n : RawPlanNode), data.get? i = some n →
      isServiceHeaderNode n = true →
      (∀ m ∈ data.take i, isServiceHeaderNode m = false) →
      planItemsAfterSlicing data = buildPlanItemsSliced (data.drop i)) := by
  constructor
  · intro h
    rw [planItemsAfterSlicing, findIdxP_none_of_all h]
  · intro i n hget hp htake
    rw [planItemsAfterSlicing, findIdxP_first hget hp htake]

theorem claim_C9_witness :
    planItemsAfterSlicing [svcNodeBefore, svcNodeHeader, svcNodeAfter] =
      buildPlanItemsSliced ([svcNodeBefore, svcNodeHeader, svcNodeAfter].drop 1) :=
  (claim_C9_service_slicing _).2 1 svcNodeHeader (by decide) (by decide) (by decide)

/-! Run summary tallies (C1). -/

theorem processItem_sum4 (f : RunFilters) (s : RunSummary) (it : LoopItem) :
    sum4 (processItem f s it) =
      sum4 s + (if (outcomeBucket f it).isSome then 1 else 0) := by
  rcases hm : it.matchUuid with - | u <;>
    simp only [processItem, outcomeBucket, hm] <;>
    split_ifs <;>
    simp_all [sum4] <;>
    omega

theorem transitionFail_bucket (f : RunFilters) (it : LoopItem)
    (h : transitionFailP f it = true) : outcomeBucket f it = none := by
  rcases hm : it.matchUuid with - | u <;>
    simp only [transitionFailP, outcomeBucket, hm] at h ⊢ <;>
    split_ifs at h ⊢ <;>
    simp_all

theorem reachesTally_eq (f : RunFilters) (it : LoopItem) :
    reachesTally f it = ((outcomeBucket f it).isSome || transitionFailP f it) := by
  rw [reachesTally]
  rcases hm : it.matchUuid with - | u <;>
    simp only [processItem, outcomeBucket, transitionFailP, hm] <;>
    split_ifs <;>
    simp_all [zeroSummary]

theorem runLoop_sum4 (f : RunFilters) :
    ∀ (items : List LoopItem) (s0 : RunSummary),
      sum4 (items.foldl (processItem f) s0) =
        sum4 s0 + items.countP (fun it => (outcomeBucket f it).isSome) := by
  intro items
  induction items with
  | nil => intro s0; simp
  | cons it rest ih =>
    intro s0
    rw [List.foldl_cons, ih, processItem_sum4, List.countP_cons]
    by_cases hb : (outcomeBucket f it).isSome = true <;> simp [hb] <;> omega

theorem countP_disjoint {α : Type} (p q : α → Bool)
    (h : ∀ x, q x = true → p x = false) :
    ∀ l : List α, l.countP (fun x => p x || q x) = l.countP p + l.countP q := by
  intro l
  induction l with
  | nil => simp
  | cons a rest ih =>
    rw [List.countP_cons, List.countP_cons, List.countP_cons, ih]
    by_cases hq : q a = true
    · have hp := h a hq
      simp [hp, hq]
      omega
    · have hq' : q a = false := by simpa using hq
      by_cases hp : p a = true <;> simp [hp, hq'] <;> omega

/-- CLAIM C1 (amended): over any mutation loop run, updated + skipped +
noDesc + missingPath plus the number of items whose transition rewrite failed
equals the number of items processed to some outcome; each processed item
lands in at most one of the four buckets, and a failed transition rewrite is
tallied only in writeErrors, never in the four buckets. -/
theorem claim_C1_tally_conservation (f : RunFilters) (items : List LoopItem) :
    (sum4 (runLoopSummary f items) + items.countP (transitionFailP f)
      = items.countP (reachesTally f)) ∧
    ∀ it : LoopItem, transitionFailP f it = true → outcomeBucket f it = none := by
  constructor
  · have h1 : sum4 (runLoopSummary f items) =
        items.countP (fun it => (outcomeBucket f it).isSome) := by
      rw [runLoopSummary, runLoop_sum4]
      simp [sum4, zeroSummary]
    have h2 : items.countP (reachesTally f) =
        items.countP (fun it => (outcomeBucket f it).isSome || transitionFailP f it) :=
      List.countP_congr (fun it _ => by rw [reachesTally_eq])
    rw [h1, h2,
      countP_disjoint (fun it => (outcomeBucket f it).isSome) (transitionFailP f)
        (fun it hq => by simp [transitionFail_bucket f it hq])]
  · exact transitionFail_bucket f

theorem claim_C1_witness :
    (sum4 (runLoopSummary ⟨none, none⟩ [transFailCexItem]) +
        [transFailCexItem].countP (transitionFailP ⟨none, none⟩)
      = [transFailCexItem].countP (reachesTally ⟨none, none⟩)) ∧
    outcomeBucket ⟨none, none⟩ transFailCexItem = none :=
  ⟨(claim_C1_tally_conservation ⟨none, none⟩ [transFailCexItem]).1,
   (claim_C1_tally_conservation ⟨none, none⟩ [transFailCexItem]).2
     transFailCexItem (by decide)⟩

/-- CLAIM C1 counterexample: a single matched Transitions item whose rewrite
fails is processed to an outcome (writeErrors) but lands in none of the four
buckets, so updated + skipped + noDesc + missingPath is 0 while one item was
processed: the claimed inequality fails. -/
theorem claim_C1_counterexample :
    ¬(sum4 (runLoopSummary ⟨none, none⟩ [transFailCexItem]) ≥
        [transFailCexItem].countP (reachesTally ⟨none, none⟩)) := by
  decide

/-! Abort conditions of the orchestrator (C2) and the relaunch guarantee
(C5). -/

theorem loop_noraise (f : RunFilters) :
    ∀ (items : List LoopItem) (s : RunSummary),
      (∀ it ∈ items, it.raises = false) →
      (runLoopWithRaise f items s).2 = false := by
  intro items
  induction items with
  | nil => intro s _; rfl
  | cons it rest ih =>
    intro s h
    rw [runLoopWithRaise, if_neg (by simp [h it (by simp)])]
    exact ih _ (fun x hx => h x (List.mem_cons_of_mem _ hx))

/-- CLAIM C2 (amended): given valid host and library-path parameters and no
exception escaping the loop, the run returns an error result exactly when the
plan fetch fails, the library index fails, or the pre-write host shutdown
fails; per-item rewrite and notes failures and missing timer, stage-layout,
media-playlist or prop features never abort the run. -/
theorem claim_C2_abort_conditions (env : RunEnv)
    (h1 : env.hostPortOk = true) (h2 : env.libraryRootOk = true)
    (h3 : ∀ it ∈ env.items, it.raises = false) :
    (runPresentationSyncModel env).result.isFatal = true ↔
      (env.planFetchOk = false ∨ env.indexOk = false ∨
        (shouldReopen env = true ∧ env.quitOk = false)) := by
  rw [runPresentationSyncModel]
  rw [if_neg (by simp [h1]), if_neg (by simp [h2])]
  by_cases hp : env.planFetchOk = true
  · rw [if_neg (by simp [hp])]
    by_cases hidx : env.indexOk = true
    · rw [if_neg (by simp [hidx])]
      by_cases hq : (shouldReopen env && !env.quitOk) = true
      · rw [if_pos hq]
        simp only [Bool.and_eq_true, Bool.not_eq_true'] at hq
        simp [RunResult.isFatal, hp, hidx, hq]
      · rw [if_neg hq]
        simp only [Bool.and_eq_true, Bool.not_eq_true'] at hq
        have hr : (runLoopWithRaise env.filters env.items zeroSummary).2 = false :=
          loop_noraise env.filters env.items zeroSummary h3
        simp [hr, RunResult.isFatal, hp, hidx, hq]
    · have hidx' : env.indexOk = false := by simpa using hidx
      rw [if_pos (by simp [hidx'])]
      simp [RunResult.isFatal, hidx']
  · have hp' : env.planFetchOk = false := by simpa using hp
    rw [if_pos (by simp [hp'])]
    simp [RunResult.isFatal, hp']

theorem claim_C2_witness :
    (runPresentationSyncModel envIdxFail).result.isFatal = true ↔
      (envIdxFail.planFetchOk = false ∨ envIdxFail.indexOk = false ∨
        (shouldReopen envIdxFail = true ∧ envIdxFail.quitOk = false)) :=
  claim_C2_abort_conditions envIdxFail (by decide) (by decide) (by decide)

/-- CLAIM C2 counterexample: a run in which the plan fetch and the host
shutdown both succeed but the library index fails still aborts with an error
result, so plan-fetch and shutdown failures are not the only aborting
errors. -/
theorem claim_C2_counterexample :
    (runPresentationSyncModel envIdxFail).result.isFatal = true ∧
      envIdxFail.planFetchOk = true ∧ envIdxFail.quitOk = true ∧
      envIdxFail.hostPortOk = true ∧ envIdxFail.libraryRootOk = true := by
  decide

/-- CLAIM C5: whenever reopen is requested on a platform with process control
and the run reaches the mutation loop, the relaunch step is attempted — in
the finally block — whether or not an exception escapes the loop. -/
theorem claim_C5_relaunch_in_finally (env : RunEnv)
    (h1 : env.hostPortOk = true) (h2 : env.libraryRootOk = true)
    (h3 : env.planFetchOk = true) (h4 : env.indexOk = true)
    (h5 : env.quitOk = true) (h6 : env.reopenRequested = true)
    (h7 : env.platformDarwin = true) :
    (runPresentationSyncModel env).relaunchAttempted = true := by
  rw [runPresentationSyncModel]
  rw [if_neg (by simp [h1]), if_neg (by simp [h2]), if_neg (by simp [h3]),
    if_neg (by simp [h4]), if_neg (by simp [h5])]
  cases hr : (runLoopWithRaise env.filters env.items zeroSummary).2 <;>
    simp [hr, shouldReopen, h6, h7]

theorem claim_C5_witness :
    (runPresentationSyncModel envRaise).relaunchAttempted = true :=
  claim_C5_relaunch_in_finally envRaise (by decide) (by decide) (by decide)
    (by decide) (by decide) (by decide) (by decide)

end PPSync
